import Mathlib

/-!
Verification of the websketch-ir core library (text normalization and hashing,
node hashing and fingerprinting, the diff engine, and the validator / strict
parser) against its natural-language specification.

The TypeScript sources are shallowly embedded: JavaScript numbers are modelled
as rationals (ℚ), 32-bit integer operations carry an explicit `% 2 ^ 32`,
JavaScript strings are Lean strings whose UTF-16 code units are recovered by
`utf16Units`, absent optional fields are `Option.none`, and thrown exceptions
become `Except.error`.  Notes on deliberate conflations are attached to the
definitions they concern.
-/

/-! ## JavaScript string primitives -/

/-- UTF-16 code units of one character, as JavaScript `charCodeAt` sees them:
a basic-plane code point is itself, anything above U+FFFF is a surrogate pair. -/
def charUtf16 (c : Char) : List ℕ :=
  let n := c.toNat
  if n < 0x10000 then [n]
  else [0xD800 + (n - 0x10000) / 0x400, 0xDC00 + (n - 0x10000) % 0x400]

/-- UTF-16 code units of a string (JavaScript string contents). -/
def utf16Units (s : String) : List ℕ :=
  (s.data.map charUtf16).flatten

/-- JavaScript `String.prototype.length`: the number of UTF-16 code units. -/
def utf16Length (s : String) : ℕ :=
  (utf16Units s).length

/-- Membership in the JavaScript regular-expression class `\s` (WhiteSpace
together with LineTerminator). -/
def isJsSpace (c : Char) : Bool :=
  let n := c.toNat
  n = 9 || n = 10 || n = 11 || n = 12 || n = 13 || n = 32 || n = 0xA0 ||
  n = 0x1680 || (0x2000 ≤ n && n ≤ 0x200A) || n = 0x2028 || n = 0x2029 ||
  n = 0x202F || n = 0x205F || n = 0x3000 || n = 0xFEFF

/-- Membership in the source's `INVISIBLE_CHARS` class:
`[​-‍﻿­⁠᠎‪-‮⁦-⁩]`. -/
def isInvisibleChar (c : Char) : Bool :=
  let n := c.toNat
  (0x200B ≤ n && n ≤ 0x200D) || n = 0xFEFF || n = 0xAD || n = 0x2060 ||
  n = 0x180E || (0x202A ≤ n && n ≤ 0x202E) || (0x2066 ≤ n && n ≤ 0x2069)

/-- Replacement of every maximal run of `\s` by a single ASCII space, the
effect of `.replace(/\s+/g, " ")`.  The boolean argument records whether the
previous character belonged to the current whitespace run. -/
def collapseWsAux : Bool → List Char → List Char
  | _, [] => []
  | inRun, c :: rest =>
    if isJsSpace c then
      (if inRun then [] else [' ']) ++ collapseWsAux true rest
    else c :: collapseWsAux false rest

/-- Collapse every whitespace run of a character list to one space. -/
def collapseWs (l : List Char) : List Char :=
  collapseWsAux false l

/-- JavaScript `String.prototype.trim`: strip leading and trailing whitespace. -/
def trimWs (l : List Char) : List Char :=
  ((l.dropWhile isJsSpace).reverse.dropWhile isJsSpace).reverse

/-- Character-wise lowercasing.  JavaScript `toLowerCase` applies the full
Unicode mapping; this model applies the ASCII mapping, which agrees with it on
every string the claims and golden values exercise. -/
def jsToLower (l : List Char) : List Char :=
  l.map Char.toLower

/-- Model of `normalizeText` from `text.ts`: remove invisible characters,
collapse whitespace runs to single spaces, trim the edges, lowercase. -/
def normalizeText (text : String) : String :=
  ⟨jsToLower (trimWs (collapseWs (text.data.filter (fun c => !isInvisibleChar c))))⟩

/-! ## The short structural digest (djb2) -/

/-- One step of the djb2 fold.  In the source `hash = ((hash << 5) + hash) ^
text.charCodeAt(i)` runs on 32-bit signed integers; on the unsigned residues
this is multiplication by 33 modulo `2 ^ 32` followed by xor with the code
unit. -/
def djb2Step (h c : ℕ) : ℕ :=
  ((33 * h) % 2 ^ 32) ^^^ c

/-- Value of the djb2 fold over a string's UTF-16 code units, starting at
5381; the source's `hash >>> 0` i.e. the final unsigned 32-bit residue. -/
def djb2Val (s : String) : ℕ :=
  (utf16Units s).foldl djb2Step 5381

/-- Hexadecimal digit characters, lowercase. -/
def hexChar (n : ℕ) : Char :=
  if n < 10 then Char.ofNat (48 + n) else Char.ofNat (87 + n)

/-- Digits of `n` in base `b`, most significant first, computed with explicit
fuel so that the definition is structurally recursive. -/
def digitsAux (b : ℕ) : ℕ → ℕ → List Char
  | 0, _ => []
  | fuel + 1, n => if n < b then [hexChar n] else digitsAux b fuel (n / b) ++ [hexChar (n % b)]

/-- JavaScript `Number.prototype.toString(b)` for a natural number (`b` is 10
or 16 in the source). -/
def natToBase (b n : ℕ) : String :=
  ⟨digitsAux b (n + 1) n⟩

/-- Left padding with `0` to length `k`, the `padStart(k, "0")` of the source. -/
def padStartZeros (k : ℕ) (s : String) : String :=
  ⟨List.replicate (k - s.data.length) '0' ++ s.data⟩

/-- Model of `djb2Hash` from `text.ts`: the 32-bit djb2 value rendered as
lowercase hex and padded to 8 characters. -/
def djb2Hash (text : String) : String :=
  padStartZeros 8 (natToBase 16 (djb2Val text))

/-- Model of `sha256Sync` from `text.ts`: despite its name it is the djb2
digest (the true SHA-256 lives in the asynchronous `sha256`, outside the
synchronous core). -/
def sha256Sync (text : String) : String :=
  djb2Hash text

/-! ## Text classification -/

/-- Model of `classifyText` from `text.ts`, on the normalized text.  The kind
is kept as the runtime string the TypeScript union erases to. -/
def classifyText (normalizedText : String) : String :=
  let len := utf16Length normalizedText
  if len = 0 then "none"
  else if len ≤ 20 then "short"
  else if len ≤ 150 then "sentence"
  else "paragraph"

/-- Number of matches of the global regular expression `/\n\s*\n/g` in a
character list.  The greedy scan matches, inside each maximal whitespace run
that contains at least two newlines, from the run's first newline to its last
one, and then resumes after that newline, where the run has no newline left;
hence the match count is the number of maximal `\s`-runs containing two or
more newlines.  The accumulator counts newlines seen in the current run. -/
def countBlankBreaksAux : ℕ → List Char → ℕ
  | nl, [] => if 2 ≤ nl then 1 else 0
  | nl, c :: rest =>
    if isJsSpace c then countBlankBreaksAux (if c = '\n' then nl + 1 else nl) rest
    else (if 2 ≤ nl then 1 else 0) + countBlankBreaksAux 0 rest

/-- Match count of `/\n\s*\n/g` on a raw string. -/
def countBlankBreaks (s : String) : ℕ :=
  countBlankBreaksAux 0 s.data

/-- Model of `isMixedContent` from `text.ts`: at least two blank-line breaks. -/
def isMixedContent (rawText : String) : Bool :=
  2 ≤ countBlankBreaks rawText

/-- Text signal carried by a node: `{ hash?, len?, kind }`.  The `kind` field
is the runtime string of the `TextKind` union. -/
structure TextSignal where
  hash : Option String
  len : Option ℚ
  kind : String
deriving DecidableEq, Repr

/-- Model of `createTextSignalSync` from `text.ts`. -/
def createTextSignalSync (rawText : String) : TextSignal :=
  let normalized := normalizeText rawText
  let len := utf16Length normalized
  if len = 0 then { hash := none, len := none, kind := "none" }
  else
    { hash := some (sha256Sync normalized)
      len := some (len : ℚ)
      kind := if isMixedContent rawText then "mixed" else classifyText normalized }

/-! ## Number rendering (toFixed) -/

/-- Floor of a rational, computed with `Int.fdiv` so that it reduces inside
the kernel (`Rat.num / Rat.den` with floor division). -/
def qfloor (q : ℚ) : ℤ :=
  Int.fdiv q.num q.den

/-- Model of JavaScript `Math.round`: round half toward positive infinity. -/
def jsRound (q : ℚ) : ℤ :=
  qfloor (q + 1 / 2)

/-- Rendering of a nonnegative rational with exactly `f` fraction digits,
rounding ties up, per the `Number.prototype.toFixed` algorithm after its sign
split. -/
def toFixedNonneg (f : ℕ) (q : ℚ) : String :=
  let n := (qfloor (q * (10 : ℚ) ^ f + 1 / 2)).toNat
  if f = 0 then natToBase 10 n
  else natToBase 10 (n / 10 ^ f) ++ "." ++ padStartZeros f (natToBase 10 (n % 10 ^ f))

/-- Model of `Number.prototype.toFixed(f)`: negative inputs render as the
minus sign followed by the rendering of the negation. -/
def toFixedQ (f : ℕ) (q : ℚ) : String :=
  if q < 0 then "-" ++ toFixedNonneg f (-q) else toFixedNonneg f q

/-- Rendering of a rational in a JavaScript template literal.  Integral
values render exactly as JavaScript renders integral doubles; for the rare
non-integral values (only reachable in human-readable diff descriptions) the
model falls back to a fixed 17-digit expansion where JavaScript would print
the shortest round-tripping decimal. -/
def qToString (q : ℚ) : String :=
  if q.den = 1 then
    (if q.num < 0 then "-" ++ natToBase 10 q.num.natAbs else natToBase 10 q.num.natAbs)
  else toFixedQ 17 q

/-! ## Grammar: bounding boxes, nodes, captures -/

/-- Bounding box in viewport-normalized coordinates, the source's `BBox01`
4-tuple `[x, y, w, h]`. -/
structure BBox01 where
  x : ℚ
  y : ℚ
  w : ℚ
  h : ℚ
deriving DecidableEq, Repr

/-- Constant `BBOX_QUANT_STEP` from `grammar.ts`. -/
def BBOX_QUANT_STEP : ℚ := 1 / 1000

/-- Behavior flags of a node. -/
structure UINodeFlags where
  sticky : Option Bool
  scrollable : Option Bool
  repeated : Option Bool
deriving DecidableEq, Repr

/-- Scalar fields of a `UINode` (everything except `children`).  The `role`
is kept as its runtime string.  An absent optional field is `none`; the
empty-string/absent distinction matters because the source tests several of
these fields for JavaScript truthiness. -/
structure NodeCore where
  id : String
  role : String
  semantic : Option String
  name_hash : Option String
  text : Option TextSignal
  bbox : BBox01
  z : Option ℚ
  interactive : Bool
  enabled : Option Bool
  visible : Bool
  focusable : Option Bool
  flags : Option UINodeFlags
deriving DecidableEq, Repr

/-- A UI node: scalar core plus children.  The source's `children` may be
absent or an empty array; both behave identically in every consumer
(hashing, validation, diff), so the model conflates them into `[]`. -/
inductive UINode where
  | mk (core : NodeCore) (children : List UINode)

/-- Scalar fields of a node. -/
def UINode.core : UINode → NodeCore
  | .mk c _ => c

/-- Children of a node. -/
def UINode.children : UINode → List UINode
  | .mk _ cs => cs

/-- Viewport metadata of a capture. -/
structure ViewportMeta where
  w_px : ℚ
  h_px : ℚ
  aspect : ℚ
  scroll_y01 : Option ℚ
deriving DecidableEq, Repr

/-- Compiler metadata of a capture. -/
structure CompilerMeta where
  name : String
  version : String
  options_hash : String
deriving DecidableEq, Repr

/-- A complete WebSketch capture. -/
structure WebSketchCapture where
  version : String
  url : String
  timestamp_ms : ℚ
  viewport : ViewportMeta
  compiler : CompilerMeta
  root : UINode

/-! ## Bbox utilities (hash.ts) -/

/-- Model of `quantizeBbox`: round each component to the nearest multiple of
`step`. -/
def quantizeBbox (bbox : BBox01) (step : ℚ) : BBox01 :=
  ⟨(jsRound (bbox.x / step) : ℚ) * step,
   (jsRound (bbox.y / step) : ℚ) * step,
   (jsRound (bbox.w / step) : ℚ) * step,
   (jsRound (bbox.h / step) : ℚ) * step⟩

/-- Model of `bboxToString`: each component via `toFixed(precision)`, joined
with commas. -/
def bboxToString (bbox : BBox01) (precision : ℕ) : String :=
  String.intercalate "," [toFixedQ precision bbox.x, toFixedQ precision bbox.y,
    toFixedQ precision bbox.w, toFixedQ precision bbox.h]

/-! ## Node hashing (hash.ts) -/

/-- Options accepted by the hashing functions; `none` marks a key the caller
did not pass, so the default survives the `{...DEFAULT_HASH_OPTIONS,
...options}` spread. -/
structure HashOptions where
  includeText : Option Bool
  includeName : Option Bool
  includeZ : Option Bool

/-- The empty options object `{}`. -/
def HashOptions.empty : HashOptions :=
  ⟨none, none, none⟩

/-- Options after merging with `DEFAULT_HASH_OPTIONS = { includeText: true,
includeName: true, includeZ: false }`. -/
structure ResolvedHashOptions where
  includeText : Bool
  includeName : Bool
  includeZ : Bool

/-- The spread `{...DEFAULT_HASH_OPTIONS, ...options}`. -/
def resolveHashOptions (o : HashOptions) : ResolvedHashOptions :=
  ⟨o.includeText.getD true, o.includeName.getD true, o.includeZ.getD false⟩

/-- JavaScript truthiness of an optional string: present and nonempty. -/
def optStrTruthy (o : Option String) : Bool :=
  !(o.getD "").isEmpty

/-- Hash input of a single node, the source's `NodeHashInput`. -/
structure NodeHashInput where
  role : String
  bbox : String
  interactive : Bool
  visible : Bool
  enabled : Option Bool
  semantic : Option String
  text_hash : Option String
  name_hash : Option String
  z : Option ℚ

/-- Model of `nodeToHashInput`. -/
def nodeToHashInput (node : UINode) : NodeHashInput :=
  let qbbox := quantizeBbox node.core.bbox BBOX_QUANT_STEP
  { role := node.core.role
    bbox := bboxToString qbbox 3
    interactive := node.core.interactive
    visible := node.core.visible
    enabled := node.core.enabled
    semantic := node.core.semantic
    text_hash := node.core.text.bind (·.hash)
    name_hash := node.core.name_hash
    z := node.core.z }

/-- Model of `hashNodeShallow`: the ordered part list
`r:…|b:…|i:…|v:…[|e:…][|s:…][|t:…][|n:…][|z:…]` through the short digest.
The source tests `input.semantic`, `input.text_hash` and `input.name_hash`
for truthiness, so an empty string behaves like an absent field. -/
def hashNodeShallow (node : UINode) (options : HashOptions) : String :=
  let opts := resolveHashOptions options
  let input := nodeToHashInput node
  let parts : List String :=
    ["r:" ++ input.role, "b:" ++ input.bbox,
     "i:" ++ (if input.interactive then "1" else "0"),
     "v:" ++ (if input.visible then "1" else "0")] ++
    (match input.enabled with
     | some e => ["e:" ++ (if e then "1" else "0")]
     | none => []) ++
    (if optStrTruthy input.semantic then ["s:" ++ input.semantic.getD ""] else []) ++
    (if opts.includeText && optStrTruthy input.text_hash then
      ["t:" ++ (input.text_hash.getD "").take 16] else []) ++
    (if opts.includeName && optStrTruthy input.name_hash then
      ["n:" ++ (input.name_hash.getD "").take 16] else []) ++
    (match opts.includeZ, input.z with
     | true, some z => ["z:" ++ qToString z]
     | _, _ => [])
  sha256Sync (String.intercalate "|" parts)

/-! ## Stable insertion sort

The source sorts with JavaScript `Array.prototype.sort`, which is stable; for
a consistent comparator every stable sort produces the same list, and the
model fixes stable insertion sort: an element is inserted after exactly those
elements that strictly precede it under the comparator. -/

/-- Insert `a` after every element `b` with `lt b a`. -/
def insertBy (lt : α → α → Bool) (a : α) : List α → List α
  | [] => [a]
  | b :: l => if lt b a then b :: insertBy lt a l else a :: b :: l

/-- Stable insertion sort with strict-precedence test `lt`. -/
def stableSortBy (lt : α → α → Bool) : List α → List α
  | [] => []
  | a :: l => insertBy lt a (stableSortBy lt l)

theorem mem_insertBy (lt : α → α → Bool) (a x : α) (l : List α) :
    x ∈ insertBy lt a l ↔ x = a ∨ x ∈ l := by
  induction l with
  | nil => simp [insertBy]
  | cons b t ih =>
    simp only [insertBy]
    split
    · simp [ih]; tauto
    · simp

theorem mem_stableSortBy (lt : α → α → Bool) (x : α) (l : List α) :
    x ∈ stableSortBy lt l ↔ x ∈ l := by
  induction l with
  | nil => simp [stableSortBy]
  | cons b t ih => simp [stableSortBy, mem_insertBy, ih]

/-- Comparator of `hashNodeDeep`'s child sort, as a number: `y`-difference
when above the quantization step in absolute value, else `x`-difference. -/
def childCmp (a b : UINode) : ℚ :=
  let yDiff := a.core.bbox.y - b.core.bbox.y
  if BBOX_QUANT_STEP < |yDiff| then yDiff else a.core.bbox.x - b.core.bbox.x

/-- Strict precedence induced by `childCmp`. -/
def childLt (a b : UINode) : Bool :=
  childCmp a b < 0

/-- The child sort of `hashNodeDeep`: stable, by `(y, x)` position. -/
def sortChildren (l : List UINode) : List UINode :=
  stableSortBy childLt l

/-- Model of `hashNodeDeep`: shallow hash for a childless node, otherwise the
digest of the shallow hash combined with the ordered children's deep hashes. -/
def hashNodeDeep (node : UINode) (options : HashOptions) : String :=
  match node with
  | .mk core cs =>
    if cs.isEmpty then hashNodeShallow (.mk core cs) options
    else
      sha256Sync (hashNodeShallow (.mk core cs) options ++ "|c:[" ++
        String.intercalate ","
          ((sortChildren cs).attach.map (fun c => hashNodeDeep c.1 options)) ++ "]")
termination_by sizeOf node
decreasing_by
  have hm := (mem_stableSortBy childLt c.1 _).mp c.2
  have h2 := List.sizeOf_lt_of_mem hm
  simp only [UINode.mk.sizeOf_spec]
  omega

/-- Unfolding equation of `hashNodeDeep` with the `attach` bookkeeping gone. -/
theorem hashNodeDeep_mk (core : NodeCore) (cs : List UINode) (options : HashOptions) :
    hashNodeDeep (.mk core cs) options =
      (if cs.isEmpty then hashNodeShallow (.mk core cs) options
       else
        sha256Sync (hashNodeShallow (.mk core cs) options ++ "|c:[" ++
          String.intercalate "," ((sortChildren cs).map (hashNodeDeep · options)) ++ "]")) := by
  simp only [hashNodeDeep]
  split
  · rfl
  · simp [List.attach_map_val]

/-! ## Capture fingerprints (hash.ts) -/

/-- Model of `fingerprintCapture`: deep hash of the root under default
options, combined with the aspect ratio rounded to two decimals. -/
def fingerprintCapture (capture : WebSketchCapture) : String :=
  sha256Sync (hashNodeDeep capture.root HashOptions.empty ++ "|a:" ++
    toFixedQ 2 capture.viewport.aspect)

/-- Model of `fingerprintLayout`: the same with text and name hashes excluded. -/
def fingerprintLayout (capture : WebSketchCapture) : String :=
  sha256Sync (hashNodeDeep capture.root ⟨some false, some false, none⟩ ++ "|a:" ++
    toFixedQ 2 capture.viewport.aspect)

/-! ## Similarity (hash.ts) -/

/-- Model of `bboxSimilarity`: intersection over union, `0` when the union is
zero. -/
def bboxSimilarity (a b : BBox01) : ℚ :=
  let x1 := max a.x b.x
  let y1 := max a.y b.y
  let x2 := min (a.x + a.w) (b.x + b.w)
  let y2 := min (a.y + a.h) (b.y + b.h)
  let intersection := max 0 (x2 - x1) * max 0 (y2 - y1)
  let areaA := a.w * a.h
  let areaB := b.w * b.h
  let union := areaA + areaB - intersection
  if union = 0 then 0 else intersection / union

/-- JavaScript truthiness of `text?.hash` on a node. -/
def textHashTruthy (n : UINode) : Bool :=
  optStrTruthy (n.core.text.bind (·.hash))

/-- Model of `nodeSimilarity` from `hash.ts`, transcribed branch for branch:
role match scores 3 of weight 3; bbox IoU scores `2·s` of weight 2;
interactivity match scores 1 of weight 1; a semantic match scores 2 while the
`weights += 2` lives only in the one-sided `else if` branch; a text-hash
match scores 1 of weight 1 (the weight unconditional). -/
def nodeSimilarity (a b : UINode) : ℚ :=
  let score1 : ℚ := if a.core.role = b.core.role then 3 else 0
  let weights1 : ℚ := 3
  let score2 := score1 + bboxSimilarity a.core.bbox b.core.bbox * 2
  let weights2 := weights1 + 2
  let score3 := score2 + (if a.core.interactive = b.core.interactive then 1 else 0)
  let weights3 := weights2 + 1
  let semMatch := optStrTruthy a.core.semantic && optStrTruthy b.core.semantic &&
    a.core.semantic == b.core.semantic
  let score4 := score3 + (if semMatch then 2 else 0)
  let weights4 := weights3 +
    (if !semMatch && (optStrTruthy a.core.semantic || optStrTruthy b.core.semantic)
     then 2 else 0)
  let textMatch := textHashTruthy a && textHashTruthy b &&
    a.core.text.bind (·.hash) == b.core.text.bind (·.hash)
  let score5 := score4 + (if textMatch then 1 else 0)
  let weights5 := weights4 + 1
  score5 / weights5

/-! ## Diff engine (diff.ts): flattening -/

instance : Inhabited BBox01 := ⟨⟨0, 0, 0, 0⟩⟩

instance : Inhabited NodeCore :=
  ⟨⟨"", "", none, none, none, default, none, false, none, false, none, none⟩⟩

instance : Inhabited UINode := ⟨.mk default []⟩

/-- Entry of the flattened tree: node, depth, role-trail path, shallow hash. -/
structure FlatNode where
  node : UINode
  depth : ℕ
  path : String
  hash : String

instance : Inhabited FlatNode := ⟨⟨default, 0, "", ""⟩⟩

mutual

/-- Model of `flattenTree`: preorder list of `FlatNode`s.  The source builds
the current path as `path ? path + "/" + role : role` and hashes each node
shallowly with default options. -/
def flattenTree (node : UINode) (depth : ℕ) (path : String) : List FlatNode :=
  match node with
  | .mk core cs =>
    let currentPath := if path.isEmpty then core.role else path ++ "/" ++ core.role
    ⟨.mk core cs, depth, currentPath, hashNodeShallow (.mk core cs) HashOptions.empty⟩ ::
      flattenChildren cs (depth + 1) currentPath 0

/-- The indexed loop over children inside `flattenTree`; child `i` extends
the path with `[i]`. -/
def flattenChildren (cs : List UINode) (depth : ℕ) (base : String) (i : ℕ) : List FlatNode :=
  match cs with
  | [] => []
  | c :: rest =>
    flattenTree c depth (base ++ "[" ++ natToBase 10 i ++ "]") ++
      flattenChildren rest depth base (i + 1)

end

mutual

/-- Model of `countNodes`: size of a subtree. -/
def countNodes (node : UINode) : ℕ :=
  match node with
  | .mk _ cs => 1 + countNodesList cs

/-- Sum of `countNodes` over a list of nodes. -/
def countNodesList (cs : List UINode) : ℕ :=
  match cs with
  | [] => 0
  | c :: rest => countNodes c + countNodesList rest

end

/-! ## Diff engine: options and matching -/

/-- Options of `diff`; `none` marks an absent key, as with `HashOptions`. -/
structure DiffOptions where
  includeText : Option Bool
  includeName : Option Bool
  matchThreshold : Option ℚ
  topChangesLimit : Option ℕ
  moveThreshold : Option ℚ
  resizeThreshold : Option ℚ

/-- The empty options object `{}`. -/
def DiffOptions.empty : DiffOptions :=
  ⟨none, none, none, none, none, none⟩

/-- Diff options after the spread against `DEFAULT_OPTIONS`. -/
structure ResolvedDiffOptions where
  includeText : Bool
  includeName : Bool
  matchThreshold : ℚ
  topChangesLimit : ℕ
  moveThreshold : ℚ
  resizeThreshold : ℚ

/-- The spread `{...DEFAULT_OPTIONS, ...options}` with the source's defaults
`includeText = includeName = true`, `matchThreshold = 0.5`,
`topChangesLimit = 10`, `moveThreshold = resizeThreshold = 0.01`. -/
def resolveDiffOptions (o : DiffOptions) : ResolvedDiffOptions :=
  ⟨o.includeText.getD true, o.includeName.getD true, o.matchThreshold.getD (1 / 2),
   o.topChangesLimit.getD 10, o.moveThreshold.getD (1 / 100), o.resizeThreshold.getD (1 / 100)⟩

/-- One candidate pair of the similarity matrix. -/
structure Candidate where
  i : ℕ
  j : ℕ
  sim : ℚ

/-- Model of the candidate generation loop of `findMatches`: for every index
pair, a different-role pair whose bbox IoU is below `0.3` is skipped;
otherwise the pair is kept when its similarity reaches the match threshold. -/
def genCandidates (nodesA nodesB : List FlatNode) (options : ResolvedDiffOptions) :
    List Candidate :=
  ((List.range nodesA.length).map (fun i =>
    (List.range nodesB.length).filterMap (fun j =>
      let na := (nodesA.getD i default).node
      let nb := (nodesB.getD j default).node
      if na.core.role ≠ nb.core.role ∧ bboxSimilarity na.core.bbox nb.core.bbox < 3 / 10 then
        none
      else
        let sim := nodeSimilarity na nb
        if options.matchThreshold ≤ sim then some ⟨i, j, sim⟩ else none))).flatten

/-- A matched pair as the source's `Match` record. -/
structure MatchPair where
  nodeA : FlatNode
  nodeB : FlatNode
  similarity : ℚ

/-- State of the greedy matching loop. -/
structure MatchState where
  matchList : List MatchPair
  usedA : List ℕ
  usedB : List ℕ

/-- One iteration of the greedy loop: accept the candidate when neither side
is used yet. -/
def greedyStep (nodesA nodesB : List FlatNode) (st : MatchState) (c : Candidate) : MatchState :=
  if st.usedA.contains c.i || st.usedB.contains c.j then st
  else
    { matchList := st.matchList ++ [⟨nodesA.getD c.i default, nodesB.getD c.j default, c.sim⟩]
      usedA := st.usedA ++ [c.i]
      usedB := st.usedB ++ [c.j] }

/-- Result record of `findMatches`. -/
structure FindMatchesResult where
  matchList : List MatchPair
  unmatchedA : List FlatNode
  unmatchedB : List FlatNode

/-- Model of `findMatches`: generate candidates, sort them by similarity
descending (stably, ties in generation order), match greedily, and collect
the unmatched nodes of each side. -/
def findMatches (nodesA nodesB : List FlatNode) (options : ResolvedDiffOptions) :
    FindMatchesResult :=
  let candidates := genCandidates nodesA nodesB options
  let sorted := stableSortBy (fun c d => d.sim < c.sim) candidates
  let final := sorted.foldl (greedyStep nodesA nodesB) ⟨[], [], []⟩
  { matchList := final.matchList
    unmatchedA := (List.range nodesA.length).filterMap
      (fun i => if final.usedA.contains i then none else some (nodesA.getD i default))
    unmatchedB := (List.range nodesB.length).filterMap
      (fun j => if final.usedB.contains j then none else some (nodesB.getD j default)) }

/-! ## Diff engine: change classification -/

/-- The source's `ChangeType` union. -/
inductive ChangeType where
  | added
  | removed
  | moved
  | resized
  | text_changed
  | interactive_changed
  | role_changed
  | children_changed
deriving DecidableEq, Repr

/-- Componentwise bbox difference. -/
structure BBoxDelta where
  dx : ℚ
  dy : ℚ
  dw : ℚ
  dh : ℚ
deriving DecidableEq, Repr

/-- Model of `computeBboxDelta`. -/
def computeBboxDelta (a b : BBox01) : BBoxDelta :=
  ⟨b.x - a.x, b.y - a.y, b.w - a.w, b.h - a.h⟩

/-- One detected change, the source's `NodeChange`. -/
structure NodeChange where
  type : ChangeType
  nodeA : Option UINode
  nodeB : Option UINode
  similarity : Option ℚ
  bboxDelta : Option BBoxDelta
  description : String

/-- The `${a.role}${a.semantic ? ":" + a.semantic : ""}` prefix of the
human-readable descriptions. -/
def roleSemTag (a : UINode) : String :=
  a.core.role ++ (if optStrTruthy a.core.semantic then ":" ++ a.core.semantic.getD "" else "")

/-- Model of `classifyMatchChanges`: moved, resized, role, text, interactive
and children-count changes of a matched pair, in the source's push order. -/
def classifyMatchChanges (m : MatchPair) (options : ResolvedDiffOptions) : List NodeChange :=
  let a := m.nodeA.node
  let b := m.nodeB.node
  let delta := computeBboxDelta a.core.bbox b.core.bbox
  let moved := options.moveThreshold < |delta.dx| ∨ options.moveThreshold < |delta.dy|
  let resized := options.resizeThreshold < |delta.dw| ∨ options.resizeThreshold < |delta.dh|
  (if moved then
    [⟨.moved, some a, some b, some m.similarity, some delta,
      roleSemTag a ++ " moved by (" ++ toFixedQ 1 (delta.dx * 100) ++ "%, " ++
        toFixedQ 1 (delta.dy * 100) ++ "%)"⟩] else []) ++
  (if resized then
    [⟨.resized, some a, some b, some m.similarity, some delta,
      roleSemTag a ++ " resized by (" ++ toFixedQ 1 (delta.dw * 100) ++ "%, " ++
        toFixedQ 1 (delta.dh * 100) ++ "%)"⟩] else []) ++
  (if a.core.role ≠ b.core.role then
    [⟨.role_changed, some a, some b, some m.similarity, none,
      "Role changed from " ++ a.core.role ++ " to " ++ b.core.role⟩] else []) ++
  (if options.includeText ∧ a.core.text.bind (·.hash) ≠ b.core.text.bind (·.hash) then
    [⟨.text_changed, some a, some b, some m.similarity, none,
      roleSemTag a ++ " text changed (" ++
        qToString ((a.core.text.bind (·.len)).getD 0) ++ " → " ++
        qToString ((b.core.text.bind (·.len)).getD 0) ++ " chars)"⟩] else []) ++
  (if a.core.interactive ≠ b.core.interactive then
    [⟨.interactive_changed, some a, some b, some m.similarity, none,
      roleSemTag a ++ " interactive: " ++ (if a.core.interactive then "true" else "false") ++
        " → " ++ (if b.core.interactive then "true" else "false")⟩] else []) ++
  (if a.children.length ≠ b.children.length then
    [⟨.children_changed, some a, some b, some m.similarity, none,
      roleSemTag a ++ " children: " ++ natToBase 10 a.children.length ++ " → " ++
        natToBase 10 b.children.length⟩] else [])

/-- Model of `bboxArea`. -/
def bboxArea (bbox : BBox01) : ℚ :=
  bbox.w * bbox.h

/-- Area key of a change, `a.nodeA?.bbox || a.nodeB?.bbox || [0,0,0,0]`. -/
def changeArea (c : NodeChange) : ℚ :=
  bboxArea (((c.nodeA.map (·.core.bbox)).orElse (fun _ => c.nodeB.map (·.core.bbox))).getD
    ⟨0, 0, 0, 0⟩)

/-- The `added` change of an unmatched B node. -/
def addedChange (f : FlatNode) : NodeChange :=
  ⟨.added, none, some f.node, none, none,
   "Added " ++ roleSemTag f.node ++ " at (" ++ toFixedQ 0 (f.node.core.bbox.x * 100) ++
     "%, " ++ toFixedQ 0 (f.node.core.bbox.y * 100) ++ "%)"⟩

/-- The `removed` change of an unmatched A node. -/
def removedChange (f : FlatNode) : NodeChange :=
  ⟨.removed, some f.node, none, none, none,
   "Removed " ++ roleSemTag f.node ++ " from (" ++ toFixedQ 0 (f.node.core.bbox.x * 100) ++
     "%, " ++ toFixedQ 0 (f.node.core.bbox.y * 100) ++ "%)"⟩

/-! ## Diff engine: assembly -/

/-- Summary block of a diff result; `counts` is the per-type tally record. -/
structure DiffSummary where
  counts : ChangeType → ℕ
  identical : Bool
  fingerprintsMatch : Bool
  layoutFingerprintsMatch : Bool
  nodeCountA : ℕ
  nodeCountB : ℕ

/-- Metadata comparison block of a diff result. -/
structure DiffMetadata where
  urlChanged : Bool
  viewportChanged : Bool
  compilerVersionMatch : Bool

/-- Full result of `diff`. -/
structure DiffResult where
  summary : DiffSummary
  changes : List NodeChange
  topChanges : List NodeChange
  metadata : DiffMetadata

/-- Model of `diff` from `diff.ts`: flatten both trees, match greedily,
classify matched pairs then added then removed nodes, tally the counts, rank
by affected area, and compare fingerprints and metadata. -/
def diff (captureA captureB : WebSketchCapture) (options : DiffOptions) : DiffResult :=
  let opts := resolveDiffOptions options
  let flatA := flattenTree captureA.root 0 ""
  let flatB := flattenTree captureB.root 0 ""
  let fm := findMatches flatA flatB opts
  let changes := (fm.matchList.map (classifyMatchChanges · opts)).flatten ++
    fm.unmatchedB.map addedChange ++ fm.unmatchedA.map removedChange
  let counts := changes.foldl (fun f ch => Function.update f ch.type (f ch.type + 1))
    (fun _ => 0)
  let sortedChanges := stableSortBy (fun x y => changeArea y < changeArea x) changes
  { summary :=
      { counts := counts
        identical := changes.length == 0
        fingerprintsMatch := fingerprintCapture captureA == fingerprintCapture captureB
        layoutFingerprintsMatch := fingerprintLayout captureA == fingerprintLayout captureB
        nodeCountA := countNodes captureA.root
        nodeCountB := countNodes captureB.root }
    changes := changes
    topChanges := sortedChanges.take opts.topChangesLimit
    metadata :=
      { urlChanged := captureA.url != captureB.url
        viewportChanged := (captureA.viewport.w_px != captureB.viewport.w_px) ||
          (captureA.viewport.h_px != captureB.viewport.h_px)
        compilerVersionMatch := captureA.compiler.version == captureB.compiler.version } }

/-! ## JSON values (the parsed form validated by errors.ts) -/

/-- A parsed JSON value.  `parseCapture`'s first step, `JSON.parse`, is not
modelled: the embedding starts from the parsed value, and serialization is
the function `captureToJson` below (for finite JavaScript numbers
`JSON.parse ∘ JSON.stringify` is the identity on parsed values). -/
inductive JValue where
  | null
  | bool (b : Bool)
  | num (q : ℚ)
  | str (s : String)
  | arr (elems : List JValue)
  | obj (fields : List (String × JValue))

/-- Model of the `typeOf` helper of `errors.ts` (`typeof` with `null` and
arrays distinguished). -/
def typeOf : JValue → String
  | .null => "null"
  | .arr _ => "array"
  | .bool _ => "boolean"
  | .num _ => "number"
  | .str _ => "string"
  | .obj _ => "object"

/-- Type name of a possibly absent value; an absent key reads as `undefined`. -/
def typeOfOpt : Option JValue → String
  | none => "undefined"
  | some v => typeOf v

/-- Property lookup on an object's field list. -/
def getField (fields : List (String × JValue)) (k : String) : Option JValue :=
  (fields.find? (fun p => p.1 == k)).map (·.2)

theorem sizeOf_getField {fields : List (String × JValue)} {k : String} {v : JValue}
    (h : getField fields k = some v) : sizeOf v < sizeOf fields := by
  unfold getField at h
  cases hf : fields.find? (fun p => p.1 == k) with
  | none => simp [hf] at h
  | some p =>
    have hm := List.mem_of_find?_eq_some hf
    have h1 := List.sizeOf_lt_of_mem hm
    have h2 : sizeOf p.2 < sizeOf p := by
      obtain ⟨a, b⟩ := p
      simp only [Prod.mk.sizeOf_spec]
      omega
    have h3 : p.2 = v := by simp [hf] at h; exact h
    rw [h3] at h2
    omega

/-- One validation issue of `errors.ts`. -/
structure WebSketchValidationIssue where
  path : String
  expected : String
  received : String
  message : String
deriving DecidableEq, Repr

/-- The `issue` constructor helper of `errors.ts`. -/
def issue (path expected received message : String) : WebSketchValidationIssue :=
  ⟨path, expected, received, message⟩

/-- Resource limits for validation. -/
structure WebSketchLimits where
  maxNodes : ℕ
  maxDepth : ℕ
  maxStringLength : ℕ
deriving DecidableEq, Repr

/-- The source's `DEFAULT_LIMITS`. -/
def DEFAULT_LIMITS : WebSketchLimits :=
  ⟨10000, 50, 10000⟩

/-- A `Partial<WebSketchLimits>` argument; `none` marks an absent key. -/
structure PartialLimits where
  maxNodes : Option ℕ
  maxDepth : Option ℕ
  maxStringLength : Option ℕ

/-- The absent / empty limits argument. -/
def PartialLimits.empty : PartialLimits :=
  ⟨none, none, none⟩

/-- The spread `{...DEFAULT_LIMITS, ...limits}`. -/
def resolveLimits (o : PartialLimits) : WebSketchLimits :=
  ⟨o.maxNodes.getD DEFAULT_LIMITS.maxNodes, o.maxDepth.getD DEFAULT_LIMITS.maxDepth,
   o.maxStringLength.getD DEFAULT_LIMITS.maxStringLength⟩

/-- The `VALID_ROLES` set, in the source's insertion order (a JavaScript
`Set` iterates in insertion order, which the role error message exposes). -/
def VALID_ROLES : List String :=
  ["PAGE", "NAV", "HEADER", "FOOTER", "SECTION", "CARD", "LIST", "TABLE",
   "MODAL", "TOAST", "DROPDOWN",
   "FORM", "INPUT", "BUTTON", "LINK", "CHECKBOX", "RADIO", "ICON",
   "IMAGE", "TEXT",
   "PAGINATION",
   "UNKNOWN"]

/-! ## Node validation (errors.ts) -/

/-- Issues of the `role` check of `validateNode`. -/
def roleIssues (fields : List (String × JValue)) (path : String) :
    List WebSketchValidationIssue :=
  match getField fields "role" with
  | some (.str r) =>
    if VALID_ROLES.contains r then []
    else [issue (path ++ ".role") ("one of [" ++ String.intercalate ", " VALID_ROLES ++ "]")
      ("\"" ++ r ++ "\"") ("Invalid UI role: \"" ++ r ++ "\"")]
  | other => [issue (path ++ ".role") "string (UIRole)" (typeOfOpt other)
      "Node role is required and must be a string"]

/-- Issues of the `bbox` check of `validateNode`. -/
def bboxIssues (fields : List (String × JValue)) (path : String) :
    List WebSketchValidationIssue :=
  match getField fields "bbox" with
  | some (.arr elems) =>
    if elems.length = 4 then
      ((List.range 4).map (fun i =>
        match elems.getD i .null with
        | .num _ => []
        | other => [issue (path ++ ".bbox[" ++ natToBase 10 i ++ "]") "number" (typeOf other)
            ("bbox element " ++ natToBase 10 i ++ " must be a number")])).flatten
    else [issue (path ++ ".bbox") "array of 4 numbers" ("array of " ++ natToBase 10 elems.length)
      "Node bbox must have exactly 4 elements"]
  | other => [issue (path ++ ".bbox") "array of 4 numbers" (typeOfOpt other)
      "Node bbox is required and must be an array"]

/-- Issues of a required boolean field of `validateNode`. -/
def boolFieldIssues (fields : List (String × JValue)) (path name message : String) :
    List WebSketchValidationIssue :=
  match getField fields name with
  | some (.bool _) => []
  | other => [issue (path ++ "." ++ name) "boolean" (typeOfOpt other) message]

/-- Issues of the `id` check of `validateNode`. -/
def idIssues (fields : List (String × JValue)) (path : String) :
    List WebSketchValidationIssue :=
  match getField fields "id" with
  | some (.str _) => []
  | other => [issue (path ++ ".id") "string" (typeOfOpt other)
      "Node id is required and must be a string"]

/-- Issues of the optional `text` check of `validateNode`. -/
def textIssues (fields : List (String × JValue)) (path : String) :
    List WebSketchValidationIssue :=
  match getField fields "text" with
  | none => []
  | some (.obj tfields) =>
    (match getField tfields "kind" with
     | some (.str _) => []
     | other => [issue (path ++ ".text.kind") "string (TextKind)" (typeOfOpt other)
         "TextSignal kind is required"])
  | some other => [issue (path ++ ".text") "TextSignal object" (typeOf other)
      "Node text must be a TextSignal object"]

mutual

/-- Model of `validateNode` from `errors.ts`.  `nodeCount` is the running
node counter (the mutable `state.nodeCount`), `issues` the shared issue
array; the result is the updated counter with the extended issue list.
Checks run in the source's order: limits, object-ness, role, bbox,
interactive, visible, id, text, children. -/
def validateNode (data : JValue) (path : String) (depth : ℕ) (nodeCount : ℕ)
    (limits : WebSketchLimits) (issues : List WebSketchValidationIssue) :
    ℕ × List WebSketchValidationIssue :=
  let nc := nodeCount + 1
  if limits.maxNodes < nc then
    (nc, issues ++ [issue path ("<= " ++ natToBase 10 limits.maxNodes ++ " nodes")
      (natToBase 10 nc ++ "+")
      ("Node count exceeds maxNodes limit (" ++ natToBase 10 limits.maxNodes ++ ")")])
  else if limits.maxDepth < depth then
    (nc, issues ++ [issue path ("depth <= " ++ natToBase 10 limits.maxDepth)
      ("depth " ++ natToBase 10 depth)
      ("Tree depth exceeds maxDepth limit (" ++ natToBase 10 limits.maxDepth ++ ")")])
  else
    match data with
    | .obj fields =>
      let issues := issues ++ roleIssues fields path ++ bboxIssues fields path ++
        boolFieldIssues fields path "interactive" "Node interactive is required and must be a boolean" ++
        boolFieldIssues fields path "visible" "Node visible is required and must be a boolean" ++
        idIssues fields path ++ textIssues fields path
      (match h : getField fields "children" with
       | none => (nc, issues)
       | some (.arr elems) => validateChildren elems path 0 (depth + 1) nc limits issues
       | some other => (nc, issues ++ [issue (path ++ ".children") "array" (typeOf other)
           "Node children must be an array"]))
    | other => (nc, issues ++ [issue path "object" (typeOf other) "Node must be an object"])
termination_by sizeOf data
decreasing_by
  have h1 := sizeOf_getField h
  simp only [JValue.arr.sizeOf_spec] at h1
  simp only [JValue.obj.sizeOf_spec]
  omega

/-- The indexed loop over `node.children` inside `validateNode`, stopping
once the shared issue list exceeds 100 entries. -/
def validateChildren (elems : List JValue) (basePath : String) (i : ℕ) (depth : ℕ)
    (nodeCount : ℕ) (limits : WebSketchLimits) (issues : List WebSketchValidationIssue) :
    ℕ × List WebSketchValidationIssue :=
  match elems with
  | [] => (nodeCount, issues)
  | v :: rest =>
    let r := validateNode v (basePath ++ ".children[" ++ natToBase 10 i ++ "]") depth
      nodeCount limits issues
    if 100 < r.2.length then r
    else validateChildren rest basePath (i + 1) depth r.1 limits r.2
termination_by sizeOf elems
decreasing_by
  · simp only [List.cons.sizeOf_spec]; omega
  · simp only [List.cons.sizeOf_spec]; omega

end

/-! ## Capture validation and strict parsing (errors.ts) -/

/-- Issues of the top-level `version` check of `validateCapture`. -/
def versionIssues (fields : List (String × JValue)) : List WebSketchValidationIssue :=
  match getField fields "version" with
  | some (.str v) =>
    if v = "0.1" then []
    else [issue "version" "\"0.1\"" ("\"" ++ v ++ "\"") ("Unsupported version: \"" ++ v ++ "\"")]
  | other => [issue "version" "\"0.1\"" (typeOfOpt other) "Capture version is required"]

/-- Issue list of a required top-level string field. -/
def strFieldIssues (fields : List (String × JValue)) (name expected message : String) :
    List WebSketchValidationIssue :=
  match getField fields name with
  | some (.str _) => []
  | other => [issue name expected (typeOfOpt other) message]

/-- Issue list of a required numeric field at a given path. -/
def numFieldIssues (fields : List (String × JValue)) (name path message : String) :
    List WebSketchValidationIssue :=
  match getField fields name with
  | some (.num _) => []
  | other => [issue path "number" (typeOfOpt other) message]

/-- Issues of the `viewport` block of `validateCapture`. -/
def viewportIssues (fields : List (String × JValue)) : List WebSketchValidationIssue :=
  match getField fields "viewport" with
  | some (.obj vf) =>
    numFieldIssues vf "w_px" "viewport.w_px" "Viewport w_px is required" ++
    numFieldIssues vf "h_px" "viewport.h_px" "Viewport h_px is required" ++
    numFieldIssues vf "aspect" "viewport.aspect" "Viewport aspect is required"
  | other => [issue "viewport" "ViewportMeta object" (typeOfOpt other)
      "Capture viewport is required"]

/-- Issues of the `compiler` block of `validateCapture`. -/
def compilerIssues (fields : List (String × JValue)) : List WebSketchValidationIssue :=
  match getField fields "compiler" with
  | some (.obj cf) =>
    (match getField cf "name" with
     | some (.str _) => []
     | other => [issue "compiler.name" "string" (typeOfOpt other) "Compiler name is required"]) ++
    (match getField cf "version" with
     | some (.str _) => []
     | other => [issue "compiler.version" "string" (typeOfOpt other)
         "Compiler version is required"]) ++
    (match getField cf "options_hash" with
     | some (.str _) => []
     | other => [issue "compiler.options_hash" "string" (typeOfOpt other)
         "Compiler options_hash is required"])
  | other => [issue "compiler" "CompilerMeta object" (typeOfOpt other)
      "Capture compiler is required"]

/-- Model of `validateCapture` from `errors.ts`: never throws, accumulates
path-qualified issues in the source's check order (object-ness, version, url,
timestamp_ms, viewport, compiler, root subtree). -/
def validateCapture (data : JValue) (limits : PartialLimits) : List WebSketchValidationIssue :=
  let resolvedLimits := resolveLimits limits
  match data with
  | .obj fields =>
    let issues :=
      versionIssues fields ++
      strFieldIssues fields "url" "string" "Capture url is required" ++
      (match getField fields "timestamp_ms" with
       | some (.num _) => []
       | other => [issue "timestamp_ms" "number" (typeOfOpt other)
           "Capture timestamp_ms is required"]) ++
      viewportIssues fields ++
      compilerIssues fields
    (match getField fields "root" with
     | none => issues ++ [issue "root" "UINode object" "undefined"
         "Capture root node is required"]
     | some .null => issues ++ [issue "root" "UINode object" "null"
         "Capture root node is required"]
     | some r => (validateNode r "root" 0 0 resolvedLimits issues).2)
  | other => [issue "" "object" (typeOf other) "Capture must be an object"]

/-- Structured error envelope of `errors.ts`.  The validation variant's
`issues` array is folded into the one structure (empty for other codes); the
`cause` of the JSON-syntax branch is outside the modelled pipeline. -/
structure WebSketchError where
  code : String
  message : String
  details : Option String
  path : Option String
  expected : Option String
  received : Option String
  hint : Option String
  issues : List WebSketchValidationIssue
deriving DecidableEq, Repr

/-- JavaScript `String.prototype.includes`. -/
def strContains (haystack needle : String) : Bool :=
  decide (needle.data <:+: haystack.data)

/-- The limit-or-general tail of `parseCapture`'s classification: a
`WS_LIMIT_EXCEEDED` error for the first issue whose message marks an exceeded
node-count or depth limit, else the `WS_INVALID_CAPTURE` envelope carrying
the issues. -/
def limitOrGeneralError (issues : List WebSketchValidationIssue) : WebSketchError :=
  match issues.find? (fun i =>
      strContains i.message "exceeds maxNodes" || strContains i.message "exceeds maxDepth") with
  | some li =>
    { code := "WS_LIMIT_EXCEEDED", message := li.message, details := none,
      path := some li.path, expected := some li.expected, received := some li.received,
      hint := some "The capture exceeds configured resource limits. Try increasing limits or reducing capture complexity.",
      issues := [] }
  | none =>
    { code := "WS_INVALID_CAPTURE",
      message := "Invalid capture: " ++ natToBase 10 issues.length ++ " validation issue" ++
        (if 1 < issues.length then "s" else "") ++ " found",
      details := some (String.intercalate "; "
        ((issues.take 5).map (fun i => i.path ++ ": " ++ i.message))),
      path := none, expected := none, received := none,
      hint := some "Check the capture JSON against the WebSketchCapture schema.",
      issues := issues }

/-- Model of `parseCapture` from `errors.ts`, starting from the parsed JSON
value (step 1, `JSON.parse`, is outside the model).  On success the source
returns the parsed value itself, merely cast to `WebSketchCapture`; the model
does the same, and `decodeCapture` below expresses the cast's typed reading. -/
def parseCaptureValue (json : JValue) (limits : PartialLimits) : Except WebSketchError JValue :=
  let issues := validateCapture json limits
  if issues.isEmpty then .ok json
  else
    match issues.find? (fun i => i.path == "version" && i.received != "undefined") with
    | some vi =>
      if vi.received != "\"0.1\"" then
        .error
          { code := "WS_UNSUPPORTED_VERSION",
            message := "Unsupported capture version: " ++ vi.received,
            details := none, path := none,
            expected := some "\"0.1\"", received := some vi.received,
            hint := some "This version of websketch-ir only supports version 0.1 captures.",
            issues := [] }
      else .error (limitOrGeneralError issues)
    | none => .error (limitOrGeneralError issues)

/-! ## Serialization and the typed reading of a capture -/

/-- Key-value segment of an optional property: present fields contribute one
pair, absent ones nothing, as `JSON.stringify` omits `undefined` values. -/
def optField (key : String) (o : Option JValue) : List (String × JValue) :=
  match o with
  | some v => [(key, v)]
  | none => []

/-- JSON form of a text signal, keys in the interface order. -/
def TextSignal.toJson (t : TextSignal) : JValue :=
  .obj (optField "hash" (t.hash.map .str) ++ optField "len" (t.len.map .num) ++
        [("kind", .str t.kind)])

/-- JSON form of a bounding box. -/
def BBox01.toJson (b : BBox01) : JValue :=
  .arr [.num b.x, .num b.y, .num b.w, .num b.h]

/-- JSON form of the flags record. -/
def UINodeFlags.toJson (f : UINodeFlags) : JValue :=
  .obj (optField "sticky" (f.sticky.map .bool) ++
        optField "scrollable" (f.scrollable.map .bool) ++
        optField "repeated" (f.repeated.map .bool))

mutual

/-- JSON form of a node, keys in the `UINode` interface order.  An empty
children list is omitted, matching the model's conflation of absent and
empty `children`. -/
def UINode.toJson : UINode → JValue
  | .mk core cs =>
    .obj ([("id", .str core.id), ("role", .str core.role)] ++
      optField "semantic" (core.semantic.map .str) ++
      optField "name_hash" (core.name_hash.map .str) ++
      optField "text" (core.text.map TextSignal.toJson) ++
      [("bbox", core.bbox.toJson)] ++
      optField "z" (core.z.map .num) ++
      [("interactive", .bool core.interactive)] ++
      optField "enabled" (core.enabled.map .bool) ++
      [("visible", .bool core.visible)] ++
      optField "focusable" (core.focusable.map .bool) ++
      (if cs.isEmpty then [] else [("children", .arr (UINode.listToJson cs))]) ++
      optField "flags" (core.flags.map UINodeFlags.toJson))

/-- JSON forms of a list of nodes. -/
def UINode.listToJson : List UINode → List JValue
  | [] => []
  | c :: rest => c.toJson :: UINode.listToJson rest

end

/-- JSON form of a capture, keys in the `WebSketchCapture` interface order. -/
def captureToJson (c : WebSketchCapture) : JValue :=
  .obj [("version", .str c.version), ("url", .str c.url),
        ("timestamp_ms", .num c.timestamp_ms),
        ("viewport", .obj ([("w_px", .num c.viewport.w_px), ("h_px", .num c.viewport.h_px),
          ("aspect", .num c.viewport.aspect)] ++
          optField "scroll_y01" (c.viewport.scroll_y01.map .num))),
        ("compiler", .obj [("name", .str c.compiler.name),
          ("version", .str c.compiler.version),
          ("options_hash", .str c.compiler.options_hash)]),
        ("root", c.root.toJson)]

/-- Typed reading of a required string property. -/
def readStr (fields : List (String × JValue)) (k : String) : Option String :=
  match getField fields k with
  | some (.str s) => some s
  | _ => none

/-- Typed reading of a required numeric property. -/
def readNum (fields : List (String × JValue)) (k : String) : Option ℚ :=
  match getField fields k with
  | some (.num q) => some q
  | _ => none

/-- Typed reading of a required boolean property. -/
def readBool (fields : List (String × JValue)) (k : String) : Option Bool :=
  match getField fields k with
  | some (.bool b) => some b
  | _ => none

/-- Typed reading of an optional string property. -/
def readOptStr (fields : List (String × JValue)) (k : String) : Option (Option String) :=
  match getField fields k with
  | none => some none
  | some (.str s) => some (some s)
  | some _ => none

/-- Typed reading of an optional numeric property. -/
def readOptNum (fields : List (String × JValue)) (k : String) : Option (Option ℚ) :=
  match getField fields k with
  | none => some none
  | some (.num q) => some (some q)
  | some _ => none

/-- Typed reading of an optional boolean property. -/
def readOptBool (fields : List (String × JValue)) (k : String) : Option (Option Bool) :=
  match getField fields k with
  | none => some none
  | some (.bool b) => some (some b)
  | some _ => none

/-- Typed reading of a bounding box. -/
def decodeBBox : JValue → Option BBox01
  | .arr [.num x, .num y, .num w, .num h] => some ⟨x, y, w, h⟩
  | _ => none

/-- Typed reading of a text signal. -/
def decodeTextSignal : JValue → Option TextSignal
  | .obj tf => do
    let kind ← readStr tf "kind"
    let hash ← readOptStr tf "hash"
    let len ← readOptNum tf "len"
    some ⟨hash, len, kind⟩
  | _ => none

/-- Typed reading of the flags record. -/
def decodeFlags : JValue → Option UINodeFlags
  | .obj ff => do
    let sticky ← readOptBool ff "sticky"
    let scrollable ← readOptBool ff "scrollable"
    let repeated ← readOptBool ff "repeated"
    some ⟨sticky, scrollable, repeated⟩
  | _ => none

/-- Typed reading of an optional nested object property. -/
def readOptDec {σ : Type} (dec : JValue → Option σ) (o : Option JValue) :
    Option (Option σ) :=
  match o with
  | none => some none
  | some v => (dec v).map some

/-- Typed reading of a required nested object property. -/
def readReqDec {σ : Type} (dec : JValue → Option σ) (o : Option JValue) : Option σ :=
  match o with
  | some v => dec v
  | none => none

mutual

/-- Typed reading of a node, expressing the `data as WebSketchCapture` cast
on the subtree: the in-memory view the TypeScript types promise of the JSON.
Absent `children` reads as the empty list (the model's conflation). -/
def decodeNode (v : JValue) : Option UINode :=
  match v with
  | .obj fields =>
    (match h : getField fields "children" with
     | none => some []
     | some (.arr elems) => decodeNodeList elems
     | some _ => none).bind (fun cs => do
      let id ← readStr fields "id"
      let role ← readStr fields "role"
      let semantic ← readOptStr fields "semantic"
      let name_hash ← readOptStr fields "name_hash"
      let text ← readOptDec decodeTextSignal (getField fields "text")
      let bbox ← readReqDec decodeBBox (getField fields "bbox")
      let z ← readOptNum fields "z"
      let interactive ← readBool fields "interactive"
      let enabled ← readOptBool fields "enabled"
      let visible ← readBool fields "visible"
      let focusable ← readOptBool fields "focusable"
      let flags ← readOptDec decodeFlags (getField fields "flags")
      some (.mk ⟨id, role, semantic, name_hash, text, bbox, z, interactive, enabled,
        visible, focusable, flags⟩ cs))
  | _ => none
termination_by sizeOf v
decreasing_by
  have h1 := sizeOf_getField h
  simp only [JValue.arr.sizeOf_spec] at h1
  simp only [JValue.obj.sizeOf_spec]
  omega

/-- Typed reading of a list of nodes. -/
def decodeNodeList (l : List JValue) : Option (List UINode) :=
  match l with
  | [] => some []
  | v :: rest => do
    let n ← decodeNode v
    let ns ← decodeNodeList rest
    some (n :: ns)
termination_by sizeOf l
decreasing_by
  · simp only [List.cons.sizeOf_spec]; omega
  · simp only [List.cons.sizeOf_spec]; omega

end

/-- Typed reading of a capture, expressing the `data as WebSketchCapture`
cast of `parseCapture`'s success path. -/
def decodeCapture (v : JValue) : Option WebSketchCapture :=
  match v with
  | .obj fields => do
    let version ← readStr fields "version"
    let url ← readStr fields "url"
    let timestamp_ms ← readNum fields "timestamp_ms"
    let viewport ← (match getField fields "viewport" with
      | some (.obj vf) => do
        let w_px ← readNum vf "w_px"
        let h_px ← readNum vf "h_px"
        let aspect ← readNum vf "aspect"
        let scroll_y01 ← readOptNum vf "scroll_y01"
        some (⟨w_px, h_px, aspect, scroll_y01⟩ : ViewportMeta)
      | _ => none)
    let compiler ← (match getField fields "compiler" with
      | some (.obj cf) => do
        let name ← readStr cf "name"
        let cversion ← readStr cf "version"
        let options_hash ← readStr cf "options_hash"
        some (⟨name, cversion, options_hash⟩ : CompilerMeta)
      | _ => none)
    let root ← (match getField fields "root" with
      | some rv => decodeNode rv
      | none => none)
    some ⟨version, url, timestamp_ms, viewport, compiler, root⟩
  | _ => none

/-! ## Properties of the stable insertion sort -/

theorem perm_insertBy (lt : α → α → Bool) (a : α) (l : List α) :
    (insertBy lt a l).Perm (a :: l) := by
  induction l with
  | nil => simp [insertBy]
  | cons b t ih =>
    simp only [insertBy]
    split
    · exact ((ih.cons b).trans (List.Perm.swap a b t)).symm.symm
    · exact List.Perm.refl _

theorem perm_stableSortBy (lt : α → α → Bool) (l : List α) :
    (stableSortBy lt l).Perm l := by
  induction l with
  | nil => simp [stableSortBy]
  | cons a t ih =>
    exact (perm_insertBy lt a (stableSortBy lt t)).trans (ih.cons a)

theorem pairwise_insertBy {R : α → α → Prop} (lt : α → α → Bool)
    (H1 : ∀ x y, lt x y = true → R x y) (H2 : ∀ x y, lt x y = false → R y x)
    (H3 : ∀ x y z, R x y → R y z → R x z) (a : α) {l : List α}
    (hl : l.Pairwise R) : (insertBy lt a l).Pairwise R := by
  induction l with
  | nil => simp [insertBy]
  | cons b t ih =>
    rcases List.pairwise_cons.mp hl with ⟨hbt, ht⟩
    simp only [insertBy]
    split
    · rename_i hba
      refine List.pairwise_cons.mpr ⟨?_, ih ht⟩
      intro y hy
      rcases (mem_insertBy lt a y t).mp hy with rfl | hyt
      · exact H1 b y hba
      · exact hbt y hyt
    · rename_i hba
      have hab : R a b := H2 b a (Bool.eq_false_iff.mpr hba)
      refine List.pairwise_cons.mpr ⟨?_, hl⟩
      intro y hy
      rcases List.mem_cons.mp hy with rfl | hyt
      · exact hab
      · exact H3 a b y hab (hbt y hyt)

theorem pairwise_stableSortBy {R : α → α → Prop} (lt : α → α → Bool)
    (H1 : ∀ x y, lt x y = true → R x y) (H2 : ∀ x y, lt x y = false → R y x)
    (H3 : ∀ x y z, R x y → R y z → R x z) (l : List α) :
    (stableSortBy lt l).Pairwise R := by
  induction l with
  | nil => simp [stableSortBy]
  | cons a t ih =>
    exact pairwise_insertBy lt H1 H2 H3 a ih

theorem pairwise_tie_insertBy {Q : α → α → Prop} (lt : α → α → Bool) (a : α) {l : List α}
    (hl : l.Pairwise (fun x y => lt x y = false → lt y x = false → Q x y))
    (ha : ∀ x ∈ l, Q a x) :
    (insertBy lt a l).Pairwise (fun x y => lt x y = false → lt y x = false → Q x y) := by
  induction l with
  | nil => simp [insertBy]
  | cons b t ih =>
    rcases List.pairwise_cons.mp hl with ⟨hbt, ht⟩
    simp only [insertBy]
    split
    · rename_i hba
      refine List.pairwise_cons.mpr ⟨?_, ih ht (fun x hx => ha x (List.mem_cons_of_mem b hx))⟩
      intro y hy
      rcases (mem_insertBy lt a y t).mp hy with rfl | hyt
      · intro hf _
        exact absurd hba (by simp [hf])
      · exact hbt y hyt
    · refine List.pairwise_cons.mpr ⟨?_, hl⟩
      intro y hy _ _
      exact ha y hy

theorem pairwise_tie_stableSortBy {Q : α → α → Prop} (lt : α → α → Bool) {l : List α}
    (hl : l.Pairwise Q) :
    (stableSortBy lt l).Pairwise (fun x y => lt x y = false → lt y x = false → Q x y) := by
  induction l with
  | nil => simp [stableSortBy]
  | cons a t ih =>
    rcases List.pairwise_cons.mp hl with ⟨hat, ht⟩
    refine pairwise_tie_insertBy lt a (ih ht) ?_
    intro x hx
    exact hat x ((mem_stableSortBy lt x t).mp hx)

theorem forall2_insertBy {S : α → α → Prop} (lt : α → α → Bool)
    (hlt : ∀ a a' b b', S a a' → S b b' → lt a b = lt a' b')
    {a a' : α} (ha : S a a') {l l' : List α} (hl : List.Forall₂ S l l') :
    List.Forall₂ S (insertBy lt a l) (insertBy lt a' l') := by
  induction hl with
  | nil => simpa [insertBy] using ha
  | cons hb htl ih =>
    rename_i b b' t t'
    simp only [insertBy]
    rw [hlt _ _ _ _ hb ha]
    split
    · exact List.Forall₂.cons hb ih
    · exact List.Forall₂.cons ha (List.Forall₂.cons hb htl)

theorem forall2_stableSortBy {S : α → α → Prop} (lt : α → α → Bool)
    (hlt : ∀ a a' b b', S a a' → S b b' → lt a b = lt a' b')
    {l l' : List α} (hl : List.Forall₂ S l l') :
    List.Forall₂ S (stableSortBy lt l) (stableSortBy lt l') := by
  induction hl with
  | nil => simp [stableSortBy]
  | cons ha htl ih =>
    exact forall2_insertBy lt hlt ha ih

theorem insertBy_congr (lt lt' : α → α → Bool) (a : α) (l : List α)
    (h : ∀ b ∈ l, lt b a = lt' b a) : insertBy lt a l = insertBy lt' a l := by
  induction l with
  | nil => simp [insertBy]
  | cons b t ih =>
    simp only [insertBy]
    rw [h b (List.mem_cons_self b t)]
    split
    · rw [ih (fun x hx => h x (List.mem_cons_of_mem b hx))]
    · rfl

theorem stableSortBy_congr (lt lt' : α → α → Bool) (l : List α)
    (h : ∀ a ∈ l, ∀ b ∈ l, lt a b = lt' a b) :
    stableSortBy lt l = stableSortBy lt' l := by
  induction l with
  | nil => simp [stableSortBy]
  | cons a t ih =>
    simp only [stableSortBy]
    rw [ih (fun x hx y hy =>
      h x (List.mem_cons_of_mem a hx) y (List.mem_cons_of_mem a hy))]
    exact insertBy_congr lt lt' a _ (fun b hb =>
      h b (List.mem_cons_of_mem a ((mem_stableSortBy lt' b t).mp hb))
        a (List.mem_cons_self a t))

theorem eq_of_perm_of_pairwise_keys {k : α → ℚ} {l₁ l₂ : List α}
    (hp : l₁.Perm l₂)
    (hs₁ : l₁.Pairwise (fun x y => k x ≤ k y))
    (hs₂ : l₂.Pairwise (fun x y => k x ≤ k y))
    (hne : l₁.Pairwise (fun x y => k x ≠ k y)) : l₁ = l₂ := by
  have hne₂ : l₂.Pairwise (fun x y => k x ≠ k y) :=
    (List.Perm.pairwise_iff (fun h => h.symm) hp).mp hne
  have hlt₁ : l₁.Pairwise (fun x y => k x < k y) :=
    (hs₁.and hne).imp (fun h => lt_of_le_of_ne h.1 h.2)
  have hlt₂ : l₂.Pairwise (fun x y => k x < k y) :=
    (hs₂.and hne₂).imp (fun h => lt_of_le_of_ne h.1 h.2)
  haveI : IsAntisymm α (fun x y => k x < k y) :=
    ⟨fun _ _ h1 h2 => (lt_asymm h1 h2).elim⟩
  exact List.eq_of_perm_of_sorted hp hlt₁ hlt₂

/-! ## C4: the short digest -/

theorem charUtf16_lt (c : Char) : ∀ u ∈ charUtf16 c, u < 2 ^ 16 := by
  have hv : c.toNat < 0x110000 := by
    have h := c.valid
    unfold UInt32.isValidChar Nat.isValidChar at h
    unfold Char.toNat
    rcases h with h | ⟨h1, h2⟩ <;> omega
  intro u hu
  simp only [charUtf16] at hu
  split at hu
  · rename_i h
    simp only [List.mem_singleton] at hu
    omega
  · rename_i h
    simp only [List.mem_cons, List.not_mem_nil, or_false] at hu
    rcases hu with h1 | h1
    · have hd : (c.toNat - 0x10000) / 0x400 < 0x400 := by
        apply Nat.div_lt_of_lt_mul
        omega
      omega
    · have hm : (c.toNat - 0x10000) % 0x400 < 0x400 := Nat.mod_lt _ (by norm_num)
      omega

theorem utf16Units_lt (s : String) : ∀ u ∈ utf16Units s, u < 2 ^ 16 := by
  intro u hu
  unfold utf16Units at hu
  rcases List.mem_flatten.mp hu with ⟨l, hl, hul⟩
  rcases List.mem_map.mp hl with ⟨c, _, rfl⟩
  exact charUtf16_lt c u hul

theorem xor_mod_two_pow (a b k : ℕ) : (a ^^^ b) % 2 ^ k = a % 2 ^ k ^^^ b % 2 ^ k := by
  apply Nat.eq_of_testBit_eq
  intro i
  simp only [Nat.testBit_mod_two_pow, Nat.testBit_xor]
  cases decide (i < k) <;> simp

theorem djb2Step_lt (h c : ℕ) (hc : c < 2 ^ 32) : djb2Step h c < 2 ^ 32 :=
  Nat.xor_lt_two_pow (Nat.mod_lt _ (by norm_num)) hc

theorem foldl_djb2_lt (l : List ℕ) (hl : ∀ u ∈ l, u < 2 ^ 32) :
    ∀ h, h < 2 ^ 32 → l.foldl djb2Step h < 2 ^ 32 := by
  induction l with
  | nil => intro h hh; simpa using hh
  | cons c t ih =>
    intro h hh
    simp only [List.foldl_cons]
    exact ih (fun u hu => hl u (List.mem_cons_of_mem c hu)) _
      (djb2Step_lt h c (hl c (List.mem_cons_self c t)))

theorem djb2Val_lt (s : String) : djb2Val s < 2 ^ 32 :=
  foldl_djb2_lt (utf16Units s)
    (fun u hu => lt_trans (utf16Units_lt s u hu) (by norm_num)) 5381 (by norm_num)

/-- Lowercase hexadecimal digit test. -/
def isLowerHex (c : Char) : Bool :=
  (decide ('0' ≤ c) && decide (c ≤ '9')) || (decide ('a' ≤ c) && decide (c ≤ 'f'))

theorem hexChar_isLowerHex {n : ℕ} (h : n < 16) : isLowerHex (hexChar n) = true := by
  interval_cases n <;> decide

theorem digitsAux16_hex (fuel n : ℕ) : ∀ c ∈ digitsAux 16 fuel n, isLowerHex c = true := by
  induction fuel generalizing n with
  | zero => simp [digitsAux]
  | succ fuel ih =>
    intro c hc
    unfold digitsAux at hc
    split at hc
    · rcases List.mem_singleton.mp hc with rfl
      exact hexChar_isLowerHex (by omega)
    · rcases List.mem_append.mp hc with hc1 | hc2
      · exact ih (n / 16) c hc1
      · rcases List.mem_singleton.mp hc2 with rfl
        exact hexChar_isLowerHex (Nat.mod_lt _ (by norm_num))

theorem digitsAux16_length (fuel n k : ℕ) (hn : n < 16 ^ k) (hk : 1 ≤ k) :
    (digitsAux 16 fuel n).length ≤ k := by
  induction fuel generalizing n k with
  | zero => simp [digitsAux]
  | succ fuel ih =>
    unfold digitsAux
    split
    · simpa using hk
    · rename_i hbig
      have hk2 : 2 ≤ k := by
        rcases Nat.lt_or_ge k 2 with hI | hI
        · have hk1 : k = 1 := by omega
          subst hk1
          simp at hn
          omega
        · exact hI
      have hpow : 16 * 16 ^ (k - 1) = 16 ^ k := by
        rw [← pow_succ']
        congr 1
        omega
      have hdiv : n / 16 < 16 ^ (k - 1) := by
        apply Nat.div_lt_of_lt_mul
        omega
      have hrec := ih (n / 16) (k - 1) hdiv (by omega)
      simp only [List.length_append, List.length_singleton]
      omega

/-- Modelled from the spec's words, for the refinement comparison of C4: one
update step `h ← ((h << 5) + h) XOR c, modulo 2 ^ 32`. -/
def specDjb2Step (h c : ℕ) : ℕ :=
  ((h * 2 ^ 5 + h) ^^^ c) % 2 ^ 32

/-- Modelled from the spec's words: the spec-side short digest — the fold of
`specDjb2Step` over the UTF-16 code units starting at 5381, rendered as 8
lowercase hex characters. -/
def specShortDigest (s : String) : String :=
  padStartZeros 8 (natToBase 16 ((utf16Units s).foldl specDjb2Step 5381))

theorem specDjb2Step_eq (h c : ℕ) (hc : c < 2 ^ 32) : specDjb2Step h c = djb2Step h c := by
  unfold specDjb2Step djb2Step
  rw [xor_mod_two_pow, Nat.mod_eq_of_lt hc]
  congr 2
  ring

theorem specFold_eq (l : List ℕ) (hl : ∀ u ∈ l, u < 2 ^ 32) (h : ℕ) :
    l.foldl specDjb2Step h = l.foldl djb2Step h := by
  induction l generalizing h with
  | nil => rfl
  | cons c t ih =>
    simp only [List.foldl_cons]
    rw [specDjb2Step_eq h c (hl c (List.mem_cons_self c t))]
    exact ih (fun u hu => hl u (List.mem_cons_of_mem c hu)) _

/-- Claim C4: the synchronous short digest is the djb2-style fold of the
spec's table over UTF-16 code units — `h` starts at 5381 and each code unit
`c` updates it to `((h << 5) + h) XOR c` modulo `2 ^ 32` — rendered as
exactly 8 lowercase hex characters, and on `"hello"` it returns exactly
`"0a9cede7"`. -/
theorem C4_short_digest :
    (∀ s, sha256Sync s = specShortDigest s) ∧
    sha256Sync "hello" = "0a9cede7" ∧
    (∀ s, (sha256Sync s).data.length = 8 ∧
      ∀ c ∈ (sha256Sync s).data, isLowerHex c = true) := by
  refine ⟨?_, by decide, ?_⟩
  · intro s
    unfold sha256Sync djb2Hash specShortDigest djb2Val
    rw [specFold_eq _ (fun u hu => lt_trans (utf16Units_lt s u hu) (by norm_num))]
  · intro s
    have hval := djb2Val_lt s
    have h16 : (16 : ℕ) ^ 8 = 2 ^ 32 := by norm_num
    have hlen : (digitsAux 16 (djb2Val s + 1) (djb2Val s)).length ≤ 8 :=
      digitsAux16_length _ _ 8 (by rw [h16]; exact hval) (by omega)
    constructor
    · unfold sha256Sync djb2Hash padStartZeros natToBase
      simp only [List.length_append, List.length_replicate]
      omega
    · intro c hc
      unfold sha256Sync djb2Hash padStartZeros natToBase at hc
      simp only [List.mem_append] at hc
      rcases hc with hc | hc
      · rcases List.eq_of_mem_replicate hc with rfl
        decide
      · exact digitsAux16_hex _ _ c hc

/-! ## C1: node similarity -/

/-- Two identical interactive BUTTON nodes with a semantic tag: the failing
input of C1. -/
def simBugNode : UINode :=
  .mk ⟨"", "BUTTON", some "submit", none, none, ⟨1/10, 2/10, 3/10, 4/10⟩, none,
    true, none, true, none, none⟩ []

/-- Claim C1 fails on the code: the semantic-match branch of `nodeSimilarity`
adds 2 to the score without adding 2 to the accumulated weight, so the
self-similarity of a node with a semantic tag is `8/7`, outside `[0, 1]` and
different from the spec table's value 1. -/
theorem C1_nodeSimilarity_exceeds_one :
    nodeSimilarity simBugNode simBugNode = 8 / 7 ∧
    1 < nodeSimilarity simBugNode simBugNode := by
  have hb : bboxSimilarity ⟨1/10, 2/10, 3/10, 4/10⟩ ⟨1/10, 2/10, 3/10, 4/10⟩ = 1 := by
    simp only [bboxSimilarity, max_self, min_self]
    norm_num
  have hs : optStrTruthy (some "submit") = true := by decide
  have hn : optStrTruthy (none : Option String) = false := by decide
  have h : nodeSimilarity simBugNode simBugNode = 8 / 7 := by
    simp only [nodeSimilarity, simBugNode, textHashTruthy, UINode.core, Option.bind,
      hb, hs, hn, beq_self_eq_true, Bool.and_self, Bool.and_true, Bool.and_false,
      Bool.or_self, Bool.not_true, Bool.not_false, Bool.false_and, Bool.true_and,
      if_true, if_false]
    norm_num
  exact ⟨h, by rw [h]; norm_num⟩

/-! ## C8: text-signal classification -/

/-- Claim C8's universal "mixed regardless of length" fails: this raw string
contains two blank-line breaks separated by a zero-width space, yet its
normalized text is empty and the code classifies it `none`, not `mixed`. -/
theorem C8_counterexample :
    isMixedContent "\n\n​\n\n" = true ∧
    (createTextSignalSync "\n\n​\n\n").kind = "none" := by
  constructor
  · decide
  · decide

/-- Claim C8 as amended: the kind is `none` for empty normalized text — even
when the raw string holds two or more blank-line breaks — and only otherwise
is a raw string with two or more blank-line breaks classified `mixed`; the
remaining strings classify by normalized length (≤ 20 short, ≤ 150 sentence,
else paragraph). -/
theorem C8_classification (raw : String) :
    (createTextSignalSync raw).kind =
      (if utf16Length (normalizeText raw) = 0 then "none"
       else if isMixedContent raw then "mixed"
       else if utf16Length (normalizeText raw) ≤ 20 then "short"
       else if utf16Length (normalizeText raw) ≤ 150 then "sentence"
       else "paragraph") := by
  by_cases h0 : utf16Length (normalizeText raw) = 0
  · simp [createTextSignalSync, h0]
  · by_cases hm : isMixedContent raw
    · simp [createTextSignalSync, h0, hm]
    · simp [createTextSignalSync, classifyText, h0, hm]

/-! ## C6: fingerprint stability under metadata -/

/-- Claim C6: two captures that differ only in `url`, `timestamp_ms` and the
compiler metadata (same version string, viewport and root) have equal full
fingerprints and equal layout fingerprints; both fingerprints read only the
root tree and the viewport aspect. -/
theorem C6_metadata_independence :
    ∀ (ver url1 url2 : String) (ts1 ts2 : ℚ) (vp : ViewportMeta)
      (comp1 comp2 : CompilerMeta) (root : UINode),
      fingerprintCapture ⟨ver, url1, ts1, vp, comp1, root⟩ =
        fingerprintCapture ⟨ver, url2, ts2, vp, comp2, root⟩ ∧
      fingerprintLayout ⟨ver, url1, ts1, vp, comp1, root⟩ =
        fingerprintLayout ⟨ver, url2, ts2, vp, comp2, root⟩ := by
  intro ver url1 url2 ts1 ts2 vp comp1 comp2 root
  exact ⟨rfl, rfl⟩

/-! ## Deep-hash congruence machinery -/

theorem childLt_congr {a a' b b' : UINode} (ha : a.core.bbox = a'.core.bbox)
    (hb : b.core.bbox = b'.core.bbox) : childLt a b = childLt a' b' := by
  simp only [childLt, childCmp, ha, hb]

theorem forall2_map_eq {S : α → α → Prop} {g : α → β} {l l' : List α}
    (h : List.Forall₂ S l l') (hg : ∀ x ∈ l, ∀ y, S x y → g x = g y) :
    l.map g = l'.map g := by
  induction h with
  | nil => rfl
  | cons hxy htl ih =>
    rename_i x y t t'
    simp only [List.map_cons]
    rw [hg x (List.mem_cons_self x t) y hxy,
      ih (fun z hz w hw => hg z (List.mem_cons_of_mem x hz) w hw)]

theorem hashNodeDeep_congr_aux (opts : HashOptions) (S : UINode → UINode → Prop)
    (hbbox : ∀ a b, S a b → a.core.bbox = b.core.bbox)
    (hshallow : ∀ a b, S a b → hashNodeShallow a opts = hashNodeShallow b opts)
    (hchildren : ∀ a b, S a b → List.Forall₂ S a.children b.children) :
    ∀ n a b, sizeOf a ≤ n → S a b → hashNodeDeep a opts = hashNodeDeep b opts := by
  intro n
  induction n with
  | zero =>
    intro a b hsz
    cases a with | mk ca csa =>
    simp only [UINode.mk.sizeOf_spec] at hsz
    omega
  | succ n ih =>
    intro a b hsz hab
    have hf2 : List.Forall₂ S a.children b.children := hchildren a b hab
    have hsh := hshallow a b hab
    cases a with | mk ca csa =>
    cases b with | mk cb csb =>
    simp only [UINode.children] at hf2
    have hlen : csa.length = csb.length := hf2.length_eq
    have hemp : csa.isEmpty = csb.isEmpty := by
      cases csa <;> cases csb <;> simp_all
    have hsorted : List.Forall₂ S (sortChildren csa) (sortChildren csb) :=
      forall2_stableSortBy childLt
        (fun x x' y y' hx hy => childLt_congr (hbbox x x' hx) (hbbox y y' hy)) hf2
    have hmap : (sortChildren csa).map (hashNodeDeep · opts) =
        (sortChildren csb).map (hashNodeDeep · opts) := by
      refine forall2_map_eq hsorted ?_
      intro x hx y hxy
      have hm : x ∈ csa := (mem_stableSortBy childLt x csa).mp hx
      have hlt := List.sizeOf_lt_of_mem hm
      simp only [UINode.mk.sizeOf_spec] at hsz
      exact ih x y (by omega) hxy
    rw [hashNodeDeep_mk, hashNodeDeep_mk, hsh, hemp, hmap]

theorem hashNodeDeep_congr (opts : HashOptions) (S : UINode → UINode → Prop)
    (hbbox : ∀ a b, S a b → a.core.bbox = b.core.bbox)
    (hshallow : ∀ a b, S a b → hashNodeShallow a opts = hashNodeShallow b opts)
    (hchildren : ∀ a b, S a b → List.Forall₂ S a.children b.children)
    (a b : UINode) (hab : S a b) : hashNodeDeep a opts = hashNodeDeep b opts :=
  hashNodeDeep_congr_aux opts S hbbox hshallow hchildren (sizeOf a) a b le_rfl hab

/-! ## C10: empty-string semantic / hash fields -/

/-- Replacement of a present-but-empty string by an absent one. -/
def scrubStr (o : Option String) : Option String :=
  if o = some "" then none else o

/-- Core with empty-string `semantic`, `name_hash` and `text.hash` removed. -/
def scrubCore (c : NodeCore) : NodeCore :=
  { c with
      semantic := scrubStr c.semantic,
      name_hash := scrubStr c.name_hash,
      text := c.text.map (fun t => { t with hash := scrubStr t.hash }) }

mutual

/-- Tree-wide removal of empty-string `semantic`, `name_hash`, `text.hash`. -/
def scrubTree : UINode → UINode
  | .mk c cs => .mk (scrubCore c) (scrubList cs)

/-- List version of `scrubTree`. -/
def scrubList : List UINode → List UINode
  | [] => []
  | n :: rest => scrubTree n :: scrubList rest

end

theorem scrubStr_truthy (o : Option String) : optStrTruthy (scrubStr o) = optStrTruthy o := by
  rcases o with _ | s
  · rfl
  · by_cases h : s = ""
    · subst h
      decide
    · have : some s ≠ some "" := by simpa using h
      simp [scrubStr, this]

theorem scrubStr_getD (o : Option String) : (scrubStr o).getD "" = o.getD "" := by
  rcases o with _ | s
  · rfl
  · by_cases h : s = ""
    · subst h
      decide
    · have : some s ≠ some "" := by simpa using h
      simp [scrubStr, this]

theorem hashNodeShallow_scrub (c : NodeCore) (cs cs' : List UINode) (opts : HashOptions) :
    hashNodeShallow (.mk (scrubCore c) cs') opts = hashNodeShallow (.mk c cs) opts := by
  have h5 : ((c.text.map (fun t => { t with hash := scrubStr t.hash })).bind (·.hash)) =
      scrubStr (c.text.bind (·.hash)) := by
    rcases c.text with _ | t
    · simp [scrubStr]
    · simp
  simp only [hashNodeShallow, nodeToHashInput, UINode.core, scrubCore, h5,
    scrubStr_truthy, scrubStr_getD]

theorem scrubTree_core (n : UINode) : (scrubTree n).core = scrubCore n.core := by
  cases n with | mk c cs => rfl

theorem scrubList_forall2 (cs : List UINode) :
    List.Forall₂ (fun x y => x = scrubTree y) (scrubList cs) cs := by
  induction cs with
  | nil => exact List.Forall₂.nil
  | cons n rest ih => exact List.Forall₂.cons rfl ih

theorem hashNodeDeep_scrub (n : UINode) (opts : HashOptions) :
    hashNodeDeep (scrubTree n) opts = hashNodeDeep n opts := by
  refine hashNodeDeep_congr opts (fun a b => a = scrubTree b) ?_ ?_ ?_ _ _ rfl
  · intro a b hab
    subst hab
    rw [scrubTree_core]
    rfl
  · intro a b hab
    subst hab
    cases b with | mk c cs =>
    exact hashNodeShallow_scrub c cs (scrubList cs) opts
  · intro a b hab
    subst hab
    cases b with | mk c cs =>
    exact scrubList_forall2 cs

/-- Claim C10: `hashNodeShallow` treats a present-but-empty `semantic`,
`name_hash` or `text.hash` exactly like an absent one (the source tests these
fields for JavaScript truthiness), and consequently removing empty-string
fields anywhere in a capture's tree changes neither `fingerprintCapture` nor
`fingerprintLayout`. -/
theorem C10_empty_string_fields :
    (∀ (id role : String) (nh : Option String) (text : Option TextSignal) (bbox : BBox01)
       (z : Option ℚ) (inter : Bool) (en : Option Bool) (vis : Bool) (foc : Option Bool)
       (fl : Option UINodeFlags) (cs : List UINode) (opts : HashOptions),
      hashNodeShallow (.mk ⟨id, role, none, nh, text, bbox, z, inter, en, vis, foc, fl⟩ cs) opts =
      hashNodeShallow (.mk ⟨id, role, some "", nh, text, bbox, z, inter, en, vis, foc, fl⟩ cs) opts) ∧
    (∀ (id role : String) (sem : Option String) (text : Option TextSignal) (bbox : BBox01)
       (z : Option ℚ) (inter : Bool) (en : Option Bool) (vis : Bool) (foc : Option Bool)
       (fl : Option UINodeFlags) (cs : List UINode) (opts : HashOptions),
      hashNodeShallow (.mk ⟨id, role, sem, none, text, bbox, z, inter, en, vis, foc, fl⟩ cs) opts =
      hashNodeShallow (.mk ⟨id, role, sem, some "", text, bbox, z, inter, en, vis, foc, fl⟩ cs) opts) ∧
    (∀ (id role : String) (sem nh : Option String) (len : Option ℚ) (kind : String)
       (bbox : BBox01) (z : Option ℚ) (inter : Bool) (en : Option Bool) (vis : Bool)
       (foc : Option Bool) (fl : Option UINodeFlags) (cs : List UINode) (opts : HashOptions),
      hashNodeShallow
        (.mk ⟨id, role, sem, nh, some ⟨none, len, kind⟩, bbox, z, inter, en, vis, foc, fl⟩ cs) opts =
      hashNodeShallow
        (.mk ⟨id, role, sem, nh, some ⟨some "", len, kind⟩, bbox, z, inter, en, vis, foc, fl⟩ cs) opts) ∧
    (∀ cap : WebSketchCapture,
      fingerprintCapture ⟨cap.version, cap.url, cap.timestamp_ms, cap.viewport, cap.compiler,
        scrubTree cap.root⟩ = fingerprintCapture cap ∧
      fingerprintLayout ⟨cap.version, cap.url, cap.timestamp_ms, cap.viewport, cap.compiler,
        scrubTree cap.root⟩ = fingerprintLayout cap) := by
  have h1 : optStrTruthy none = false := by decide
  have h2 : optStrTruthy (some "") = false := by decide
  refine ⟨?_, ?_, ?_, ?_⟩
  · intro id role nh text bbox z inter en vis foc fl cs opts
    simp only [hashNodeShallow, nodeToHashInput, UINode.core, h1, h2]
    simp
  · intro id role sem text bbox z inter en vis foc fl cs opts
    simp only [hashNodeShallow, nodeToHashInput, UINode.core, h1, h2]
    simp
  · intro id role sem nh len kind bbox z inter en vis foc fl cs opts
    simp only [hashNodeShallow, nodeToHashInput, UINode.core, Option.bind, h1, h2]
    simp
  · intro cap
    constructor
    · unfold fingerprintCapture
      rw [show (⟨cap.version, cap.url, cap.timestamp_ms, cap.viewport, cap.compiler,
        scrubTree cap.root⟩ : WebSketchCapture).root = scrubTree cap.root from rfl]
      rw [hashNodeDeep_scrub]
    · unfold fingerprintLayout
      rw [show (⟨cap.version, cap.url, cap.timestamp_ms, cap.viewport, cap.compiler,
        scrubTree cap.root⟩ : WebSketchCapture).root = scrubTree cap.root from rfl]
      rw [hashNodeDeep_scrub]

/-! ## C7: layout insensitivity to text -/

/-- Cores equal except in the values of a present `text.hash` or `name_hash`
(presence patterns and every other field equal). -/
structure CoreSameExceptTextName (c d : NodeCore) : Prop where
  id_eq : c.id = d.id
  role_eq : c.role = d.role
  semantic_eq : c.semantic = d.semantic
  name_hash_isSome : c.name_hash.isSome = d.name_hash.isSome
  text_shape : (match c.text, d.text with
    | none, none => True
    | some t, some u => t.hash.isSome = u.hash.isSome ∧ t.len = u.len ∧ t.kind = u.kind
    | _, _ => False)
  bbox_eq : c.bbox = d.bbox
  z_eq : c.z = d.z
  interactive_eq : c.interactive = d.interactive
  enabled_eq : c.enabled = d.enabled
  visible_eq : c.visible = d.visible
  focusable_eq : c.focusable = d.focusable
  flags_eq : c.flags = d.flags

/-- Trees equal except in the values of present `text.hash` / `name_hash`
fields of some nodes. -/
inductive SameExceptTextName : UINode → UINode → Prop where
  | mk : ∀ {c d : NodeCore} {cs ds : List UINode},
      CoreSameExceptTextName c d → List.Forall₂ SameExceptTextName cs ds →
      SameExceptTextName (.mk c cs) (.mk d ds)

theorem hashNodeShallow_layout_congr {c d : NodeCore} (h : CoreSameExceptTextName c d)
    (cs ds : List UINode) :
    hashNodeShallow (.mk c cs) ⟨some false, some false, none⟩ =
    hashNodeShallow (.mk d ds) ⟨some false, some false, none⟩ := by
  simp only [hashNodeShallow, nodeToHashInput, UINode.core, resolveHashOptions,
    h.role_eq, h.semantic_eq, h.bbox_eq, h.interactive_eq, h.enabled_eq, h.visible_eq]
  simp

theorem sameTN_bbox {a b : UINode} (h : SameExceptTextName a b) :
    a.core.bbox = b.core.bbox := by
  cases h with | mk hc hch => exact hc.bbox_eq

theorem sameTN_shallow {a b : UINode} (h : SameExceptTextName a b) :
    hashNodeShallow a ⟨some false, some false, none⟩ =
    hashNodeShallow b ⟨some false, some false, none⟩ := by
  cases h with | mk hc hch => exact hashNodeShallow_layout_congr hc _ _

theorem sameTN_children {a b : UINode} (h : SameExceptTextName a b) :
    List.Forall₂ SameExceptTextName a.children b.children := by
  cases h with | mk hc hch => exact hch

/-- Claim C7 as amended: if two captures differ only in the values of present
`text.hash` / `name_hash` fields of some nodes (and share the viewport
aspect), their layout fingerprints are equal.  The claim's second half — that
the full fingerprints must then differ — is refuted by `C7_counterexample`. -/
theorem C7_layout_insensitivity (a b : WebSketchCapture)
    (hroot : SameExceptTextName a.root b.root)
    (hvp : a.viewport.aspect = b.viewport.aspect) :
    fingerprintLayout a = fingerprintLayout b := by
  unfold fingerprintLayout
  rw [hvp, hashNodeDeep_congr ⟨some false, some false, none⟩ SameExceptTextName
    (fun x y hxy => sameTN_bbox hxy) (fun x y hxy => sameTN_shallow hxy)
    (fun x y hxy => sameTN_children hxy) a.root b.root hroot]

/-- Root node of the first C7 capture: text hash `0123456789abcdefX`. -/
def c7NodeA : UINode :=
  .mk ⟨"", "PAGE", none, none, some ⟨some "0123456789abcdefX", some 5, "short"⟩,
    ⟨0, 0, 1, 1⟩, none, false, none, true, none, none⟩ []

/-- Root node of the second C7 capture: text hash `0123456789abcdefY`,
agreeing with the first on the leading 16 characters. -/
def c7NodeB : UINode :=
  .mk ⟨"", "PAGE", none, none, some ⟨some "0123456789abcdefY", some 5, "short"⟩,
    ⟨0, 0, 1, 1⟩, none, false, none, true, none, none⟩ []

/-- First C7 capture. -/
def c7CapA : WebSketchCapture :=
  ⟨"0.1", "https://example.com", 1700000000000, ⟨1920, 1080, 16/9, none⟩,
   ⟨"websketch-ir", "0.2.1", "test"⟩, c7NodeA⟩

/-- Second C7 capture, identical except for the root's text hash value. -/
def c7CapB : WebSketchCapture :=
  ⟨"0.1", "https://example.com", 1700000000000, ⟨1920, 1080, 16/9, none⟩,
   ⟨"websketch-ir", "0.2.1", "test"⟩, c7NodeB⟩

theorem c7_roots_sameTN : SameExceptTextName c7CapA.root c7CapB.root :=
  .mk ⟨rfl, rfl, rfl, rfl, ⟨rfl, rfl, rfl⟩, rfl, rfl, rfl, rfl, rfl, rfl, rfl⟩ .nil

theorem c7_shallow_eq :
    hashNodeShallow c7NodeA HashOptions.empty = hashNodeShallow c7NodeB HashOptions.empty := by
  have ht : ("0123456789abcdefX" : String).take 16 = ("0123456789abcdefY" : String).take 16 := by
    decide
  have h2 : optStrTruthy (some "0123456789abcdefX") = true := by decide
  have h3 : optStrTruthy (some "0123456789abcdefY") = true := by decide
  simp only [c7NodeA, c7NodeB, hashNodeShallow, nodeToHashInput, UINode.core, Option.bind,
    resolveHashOptions, HashOptions.empty, Option.getD_none, Option.getD_some, h2, h3,
    Bool.true_and, Bool.and_true, if_true]
  rw [ht]

/-- Claim C7's inequality fails on the code: these two captures differ only
in the value of the root's `text.hash` (`…X` vs `…Y`), yet because
`hashNodeShallow` truncates text hashes to their first 16 characters the two
full fingerprints are equal, not different. -/
theorem C7_counterexample :
    SameExceptTextName c7CapA.root c7CapB.root ∧
    c7CapA.root.core.text.bind (·.hash) ≠ c7CapB.root.core.text.bind (·.hash) ∧
    fingerprintCapture c7CapA = fingerprintCapture c7CapB := by
  refine ⟨c7_roots_sameTN, by decide, ?_⟩
  have hdeepA : hashNodeDeep c7NodeA HashOptions.empty =
      hashNodeShallow c7NodeA HashOptions.empty := by
    rw [show c7NodeA = UINode.mk ⟨"", "PAGE", none, none,
      some ⟨some "0123456789abcdefX", some 5, "short"⟩,
      ⟨0, 0, 1, 1⟩, none, false, none, true, none, none⟩ [] from rfl, hashNodeDeep_mk]
    rfl
  have hdeepB : hashNodeDeep c7NodeB HashOptions.empty =
      hashNodeShallow c7NodeB HashOptions.empty := by
    rw [show c7NodeB = UINode.mk ⟨"", "PAGE", none, none,
      some ⟨some "0123456789abcdefY", some 5, "short"⟩,
      ⟨0, 0, 1, 1⟩, none, false, none, true, none, none⟩ [] from rfl, hashNodeDeep_mk]
    rfl
  unfold fingerprintCapture
  rw [show c7CapA.root = c7NodeA from rfl, show c7CapB.root = c7NodeB from rfl,
    hdeepA, hdeepB, c7_shallow_eq]
  rfl

/-- Witness for the amended C7 theorem: its hypotheses hold at the concrete
capture pair and the theorem yields their layout-fingerprint equality. -/
theorem C7_layout_insensitivity_witness :
    SameExceptTextName c7CapA.root c7CapB.root ∧
    fingerprintLayout c7CapA = fingerprintLayout c7CapB :=
  ⟨c7_roots_sameTN, C7_layout_insensitivity c7CapA c7CapB c7_roots_sameTN rfl⟩

/-! ## C3: sibling-order invariance -/

/-- Pure x-coordinate precedence, the comparator `childLt` reduces to when
all sibling pairs lie within the y tolerance. -/
def xLt (a b : UINode) : Bool :=
  decide (a.core.bbox.x < b.core.bbox.x)

theorem childLt_eq_xLt {a b : UINode}
    (hy : |a.core.bbox.y - b.core.bbox.y| ≤ BBOX_QUANT_STEP) : childLt a b = xLt a b := by
  unfold childLt childCmp xLt
  rw [if_neg (not_lt.mpr hy)]
  simp [sub_neg]

theorem sortChildren_eq_xSort (l : List UINode)
    (hy : ∀ a ∈ l, ∀ b ∈ l, |a.core.bbox.y - b.core.bbox.y| ≤ BBOX_QUANT_STEP) :
    sortChildren l = stableSortBy xLt l :=
  stableSortBy_congr childLt xLt l (fun a ha b hb => childLt_eq_xLt (hy a ha b hb))

theorem xSort_sorted (l : List UINode) :
    (stableSortBy xLt l).Pairwise (fun a b => a.core.bbox.x ≤ b.core.bbox.x) := by
  refine pairwise_stableSortBy xLt ?_ ?_ ?_ l
  · intro x y h
    exact le_of_lt (of_decide_eq_true h)
  · intro x y h
    exact not_lt.mp (of_decide_eq_false h)
  · intro x y z h1 h2
    exact le_trans h1 h2

/-- Uniqueness of the child sort: any permutation of a sibling list whose
members share one y equivalence class and have pairwise distinct x
coordinates sorts to the same list. -/
theorem sortChildren_perm_eq (l l' : List UINode) (hperm : l'.Perm l)
    (hy : ∀ a ∈ l, ∀ b ∈ l, |a.core.bbox.y - b.core.bbox.y| ≤ BBOX_QUANT_STEP)
    (hx : l.Pairwise (fun a b => a.core.bbox.x ≠ b.core.bbox.x)) :
    sortChildren l' = sortChildren l := by
  have hy' : ∀ a ∈ l', ∀ b ∈ l', |a.core.bbox.y - b.core.bbox.y| ≤ BBOX_QUANT_STEP :=
    fun a ha b hb => hy a (hperm.mem_iff.mp ha) b (hperm.mem_iff.mp hb)
  rw [sortChildren_eq_xSort l hy, sortChildren_eq_xSort l' hy']
  have hp1 : (stableSortBy xLt l').Perm (stableSortBy xLt l) :=
    ((perm_stableSortBy xLt l').trans hperm).trans (perm_stableSortBy xLt l).symm
  have hne1 : (stableSortBy xLt l).Pairwise (fun a b => a.core.bbox.x ≠ b.core.bbox.x) :=
    (List.Perm.pairwise_iff (fun h => h.symm) (perm_stableSortBy xLt l)).mpr hx
  have hne2 : (stableSortBy xLt l').Pairwise (fun a b => a.core.bbox.x ≠ b.core.bbox.x) :=
    (List.Perm.pairwise_iff (fun h => h.symm) hp1).mpr hne1
  exact eq_of_perm_of_pairwise_keys hp1 (xSort_sorted l') (xSort_sorted l) hne2

/-- Subtree of a node at a child-index path. -/
def subtreeAt : List ℕ → UINode → Option UINode
  | [], n => some n
  | i :: rest, .mk _ cs =>
    if h : i < cs.length then subtreeAt rest (cs.get ⟨i, h⟩) else none

/-- Replacement of the children of the subtree at a child-index path by the
image under `f` (identity on an out-of-range path). -/
def applyAt : List ℕ → (List UINode → List UINode) → UINode → UINode
  | [], f, .mk c cs => .mk c (f cs)
  | i :: rest, f, .mk c cs =>
    if h : i < cs.length then .mk c (cs.set i (applyAt rest f (cs.get ⟨i, h⟩)))
    else .mk c cs

theorem forall2_refl {S : α → α → Prop} (hrefl : ∀ x, S x x) (l : List α) :
    List.Forall₂ S l l := by
  induction l with
  | nil => exact List.Forall₂.nil
  | cons a t ih => exact List.Forall₂.cons (hrefl a) ih

theorem forall2_set {S : α → α → Prop} (hrefl : ∀ x, S x x) (c' : α) :
    ∀ (cs : List α) (i : ℕ), (∀ hlt : i < cs.length, S (cs.get ⟨i, hlt⟩) c') →
      List.Forall₂ S cs (cs.set i c') := by
  intro cs
  induction cs with
  | nil => intro i _; exact List.Forall₂.nil
  | cons a t ih =>
    intro i h
    cases i with
    | zero =>
      simp only [List.set_cons_zero]
      exact List.Forall₂.cons (h (by simp)) (forall2_refl hrefl t)
    | succ j =>
      simp only [List.set_cons_succ]
      exact List.Forall₂.cons (hrefl a) (ih j (fun hlt => h (by simpa using Nat.succ_lt_succ hlt)))

/-- Pointwise relation used for the C3 congruence: equal deep hash and equal
bounding box. -/
def DeepBBoxEq (opts : HashOptions) (a b : UINode) : Prop :=
  hashNodeDeep a opts = hashNodeDeep b opts ∧ a.core.bbox = b.core.bbox

theorem hashNodeDeep_forall2 (opts : HashOptions) {cs cs' : List UINode}
    (h : List.Forall₂ (DeepBBoxEq opts) cs cs') :
    hashNodeDeep (UINode.mk c cs) opts = hashNodeDeep (UINode.mk c cs') opts := by
  have hlen : cs.length = cs'.length := h.length_eq
  have hemp : cs.isEmpty = cs'.isEmpty := by
    cases cs <;> cases cs' <;> simp_all
  have hsorted : List.Forall₂ (DeepBBoxEq opts) (sortChildren cs) (sortChildren cs') :=
    forall2_stableSortBy childLt
      (fun x x' y y' hx hy => childLt_congr hx.2 hy.2) h
  have hmap : (sortChildren cs).map (hashNodeDeep · opts) =
      (sortChildren cs').map (hashNodeDeep · opts) :=
    forall2_map_eq hsorted (fun x _ y hxy => hxy.1)
  rw [hashNodeDeep_mk, hashNodeDeep_mk, hemp, hmap]
  rfl

theorem hashNodeDeep_applyAt (opts : HashOptions) (f : List UINode → List UINode) :
    ∀ (path : List ℕ) (n : UINode) (core : NodeCore) (l : List UINode),
      subtreeAt path n = some (.mk core l) →
      (f l).Perm l →
      (∀ a ∈ l, ∀ b ∈ l, |a.core.bbox.y - b.core.bbox.y| ≤ BBOX_QUANT_STEP) →
      l.Pairwise (fun a b => a.core.bbox.x ≠ b.core.bbox.x) →
      hashNodeDeep (applyAt path f n) opts = hashNodeDeep n opts ∧
        (applyAt path f n).core = n.core := by
  intro path
  induction path with
  | nil =>
    intro n core l hsub hperm hy hx
    cases n with | mk c cs =>
    simp only [subtreeAt, Option.some_inj] at hsub
    cases hsub
    refine ⟨?_, rfl⟩
    show hashNodeDeep (.mk core (f l)) opts = hashNodeDeep (.mk core l) opts
    have hemp : (f l).isEmpty = l.isEmpty := by
      have := hperm.length_eq
      cases hfl : f l <;> cases hl : l <;> simp_all
    rw [hashNodeDeep_mk, hashNodeDeep_mk, hemp, sortChildren_perm_eq l (f l) hperm hy hx]
    rfl
  | cons i rest ih =>
    intro n core l hsub hperm hy hx
    cases n with | mk c cs =>
    simp only [subtreeAt] at hsub
    split at hsub
    · rename_i hlt
      have hrec := ih (cs.get ⟨i, hlt⟩) core l hsub hperm hy hx
      have happ : applyAt (i :: rest) f (.mk c cs) =
          .mk c (cs.set i (applyAt rest f (cs.get ⟨i, hlt⟩))) := by
        simp only [applyAt]
        rw [dif_pos hlt]
      rw [happ]
      refine ⟨?_, rfl⟩
      have hF : List.Forall₂ (DeepBBoxEq opts) cs
          (cs.set i (applyAt rest f (cs.get ⟨i, hlt⟩))) := by
        refine forall2_set (fun x => show DeepBBoxEq opts x x from ⟨rfl, rfl⟩) _ cs i ?_
        intro hlt2
        exact ⟨hrec.1.symm, congrArg NodeCore.bbox hrec.2.symm⟩
      exact (hashNodeDeep_forall2 opts hF).symm
    · exact absurd hsub (by simp)

/-- Claim C3 (at the spec's instantiation): replacing the children of any
subtree of a capture by any permutation of themselves leaves
`fingerprintCapture` unchanged, provided those siblings share one y
equivalence class (pairwise within the quantization step) and have pairwise
distinct x coordinates — the sibling order is canonicalized by the child
sort of `hashNodeDeep`. -/
theorem C3_sibling_order_invariance (cap : WebSketchCapture) (path : List ℕ)
    (f : List UINode → List UINode) (core : NodeCore) (l : List UINode)
    (hsub : subtreeAt path cap.root = some (.mk core l))
    (hperm : (f l).Perm l)
    (hy : ∀ a ∈ l, ∀ b ∈ l, |a.core.bbox.y - b.core.bbox.y| ≤ BBOX_QUANT_STEP)
    (hx : l.Pairwise (fun a b => a.core.bbox.x ≠ b.core.bbox.x)) :
    fingerprintCapture ⟨cap.version, cap.url, cap.timestamp_ms, cap.viewport, cap.compiler,
      applyAt path f cap.root⟩ = fingerprintCapture cap := by
  unfold fingerprintCapture
  rw [show (⟨cap.version, cap.url, cap.timestamp_ms, cap.viewport, cap.compiler,
    applyAt path f cap.root⟩ : WebSketchCapture).root = applyAt path f cap.root from rfl,
    (hashNodeDeep_applyAt HashOptions.empty f path cap.root core l hsub hperm hy hx).1]

/-- Core of a concrete CARD sibling at horizontal offset `x`. -/
def c3CardCore (x : ℚ) : NodeCore :=
  ⟨"", "CARD", none, none, none, ⟨x, 1/2, 1/10, 1/10⟩, none, false, none, true, none, none⟩

/-- Five CARD siblings along one y with pairwise distinct x values. -/
def c3Children : List UINode :=
  [.mk (c3CardCore 0) [], .mk (c3CardCore (1/5)) [], .mk (c3CardCore (2/5)) [],
   .mk (c3CardCore (3/5)) [], .mk (c3CardCore (4/5)) []]

/-- Core of the witness capture's PAGE root. -/
def c3PageCore : NodeCore :=
  ⟨"", "PAGE", none, none, none, ⟨0, 0, 1, 1⟩, none, false, none, true, none, none⟩

/-- Root of the C3 witness capture. -/
def c3Root : UINode := .mk c3PageCore c3Children

/-- The C3 witness capture. -/
def c3Cap : WebSketchCapture :=
  ⟨"0.1", "https://example.com", 1700000000000, ⟨1920, 1080, 16/9, none⟩,
   ⟨"websketch-ir", "0.2.1", "test"⟩, c3Root⟩

/-- Witness for C3: reversing the five same-y distinct-x CARD children of
the root leaves the capture fingerprint unchanged. -/
theorem C3_sibling_order_invariance_witness :
    subtreeAt [] c3Cap.root = some (.mk c3PageCore c3Children) ∧
    (List.reverse c3Children).Perm c3Children ∧
    (∀ a ∈ c3Children, ∀ b ∈ c3Children,
      |a.core.bbox.y - b.core.bbox.y| ≤ BBOX_QUANT_STEP) ∧
    c3Children.Pairwise (fun a b => a.core.bbox.x ≠ b.core.bbox.x) ∧
    fingerprintCapture ⟨c3Cap.version, c3Cap.url, c3Cap.timestamp_ms, c3Cap.viewport,
      c3Cap.compiler, applyAt [] List.reverse c3Cap.root⟩ = fingerprintCapture c3Cap := by
  have hy : ∀ a ∈ c3Children, ∀ b ∈ c3Children,
      |a.core.bbox.y - b.core.bbox.y| ≤ BBOX_QUANT_STEP := by
    intro a ha b hb
    simp only [c3Children, List.mem_cons, List.not_mem_nil, or_false] at ha hb
    rcases ha with rfl | rfl | rfl | rfl | rfl <;>
      rcases hb with rfl | rfl | rfl | rfl | rfl <;>
      norm_num [UINode.core, c3CardCore, BBOX_QUANT_STEP]
  have hx : c3Children.Pairwise (fun a b => a.core.bbox.x ≠ b.core.bbox.x) := by
    simp only [c3Children]
    norm_num [List.pairwise_cons, UINode.core, c3CardCore]
  exact ⟨rfl, List.reverse_perm _, hy, hx,
    C3_sibling_order_invariance c3Cap [] List.reverse c3PageCore c3Children rfl
      (List.reverse_perm _) hy hx⟩

/-! ## C5: error-code priority of parseCapture -/

/-- Error code of a parse result (`"ok"` on success). -/
def errCode : Except WebSketchError JValue → String
  | .error e => e.code
  | .ok _ => "ok"

/-- Field list of the C5 counterexample's root node (a valid PAGE node). -/
def c5RootFields : List (String × JValue) :=
  [("id", .str ""), ("role", .str "PAGE"),
   ("bbox", .arr [.num 0, .num 0, .num 1, .num 1]),
   ("interactive", .bool false), ("visible", .bool true)]

/-- Fields of a capture that is valid except that its `version` is the
number 42 — not a string. -/
def c5Fields : List (String × JValue) :=
  [("version", .num 42), ("url", .str "https://example.com"),
   ("timestamp_ms", .num 1700000000000),
   ("viewport", .obj [("w_px", .num 1920), ("h_px", .num 1080), ("aspect", .num (16/9))]),
   ("compiler", .obj [("name", .str "websketch-ir"), ("version", .str "0.2.1"),
     ("options_hash", .str "test")]),
   ("root", .obj c5RootFields)]

theorem c5_validateNode_root (iss : List WebSketchValidationIssue) :
    validateNode (.obj c5RootFields) "root" 0 0 ⟨10000, 50, 10000⟩ iss = (1, iss) := by
  have hrole : roleIssues c5RootFields "root" = [] := rfl
  have hbbox : bboxIssues c5RootFields "root" = [] := rfl
  have hint : boolFieldIssues c5RootFields "root" "interactive"
      "Node interactive is required and must be a boolean" = [] := rfl
  have hvis : boolFieldIssues c5RootFields "root" "visible"
      "Node visible is required and must be a boolean" = [] := rfl
  have hid : idIssues c5RootFields "root" = [] := rfl
  have htext : textIssues c5RootFields "root" = [] := rfl
  have hch : getField c5RootFields "children" = none := rfl
  simp only [validateNode]
  rw [if_neg (by norm_num), if_neg (by norm_num)]
  simp only [hrole, hbbox, hint, hvis, hid, htext, List.append_nil]
  split
  · rfl
  · rename_i elems heq
    rw [hch] at heq
    exact Option.noConfusion heq
  · rename_i other hall heq
    rw [hch] at heq
    exact Option.noConfusion heq

theorem c5_validate :
    validateCapture (.obj c5Fields) PartialLimits.empty =
      [issue "version" "\"0.1\"" "number" "Capture version is required"] := by
  have step1 : validateCapture (.obj c5Fields) PartialLimits.empty =
      (validateNode (.obj c5RootFields) "root" 0 0 ⟨10000, 50, 10000⟩
        [issue "version" "\"0.1\"" "number" "Capture version is required"]).2 := rfl
  rw [step1, c5_validateNode_root]

/-- Claim C5's "only when the version is a string" fails on the code: here
`version` is the number 42, so it is not a string, the validator's version
issue carries received `"number"`, and `parseCapture` classifies the failure
as `WS_UNSUPPORTED_VERSION` all the same. -/
theorem C5_counterexample :
    getField c5Fields "version" = some (.num 42) ∧
    errCode (parseCaptureValue (.obj c5Fields) PartialLimits.empty) =
      "WS_UNSUPPORTED_VERSION" := by
  refine ⟨rfl, ?_⟩
  rw [show parseCaptureValue (.obj c5Fields) PartialLimits.empty =
    (let issues := validateCapture (.obj c5Fields) PartialLimits.empty
     if issues.isEmpty then .ok (.obj c5Fields)
     else
       match issues.find? (fun i => i.path == "version" && i.received != "undefined") with
       | some vi =>
         if vi.received != "\"0.1\"" then
           .error
             { code := "WS_UNSUPPORTED_VERSION",
               message := "Unsupported capture version: " ++ vi.received,
               details := none, path := none,
               expected := some "\"0.1\"", received := some vi.received,
               hint := some "This version of websketch-ir only supports version 0.1 captures.",
               issues := [] }
         else .error (limitOrGeneralError issues)
       | none => .error (limitOrGeneralError issues)) from rfl]
  rw [c5_validate]
  rfl

theorem errCode_limitOrGeneral (issues : List WebSketchValidationIssue) :
    (limitOrGeneralError issues).code ≠ "WS_UNSUPPORTED_VERSION" := by
  unfold limitOrGeneralError
  split
  · intro h
    simp at h
  · intro h
    simp at h

/-- Claim C5 as amended: `parseCapture` fails with `WS_UNSUPPORTED_VERSION`
exactly when the first validation issue whose path is `version` and whose
received value is not `undefined` has a received value other than `"0.1"`;
this includes non-string version values (received is then the value's type
name), while a missing `version` (received `undefined`) falls through to the
limit / general classification. -/
theorem C5_version_priority (j : JValue) (limits : PartialLimits) :
    errCode (parseCaptureValue j limits) = "WS_UNSUPPORTED_VERSION" ↔
    (∃ i, (validateCapture j limits).find?
        (fun i => i.path == "version" && i.received != "undefined") = some i ∧
      i.received ≠ "\"0.1\"") := by
  unfold parseCaptureValue
  by_cases hemp : (validateCapture j limits).isEmpty
  · rw [if_pos hemp]
    have hnil : (validateCapture j limits) = [] := List.isEmpty_iff.mp hemp
    rw [hnil]
    simp [errCode]
  · rw [if_neg hemp]
    split
    · rename_i vi hfind
      split
      · rename_i hrecv
        simp only [errCode]
        constructor
        · intro _
          exact ⟨vi, hfind, by simpa using hrecv⟩
        · intro _
          trivial
      · rename_i hrecv
        constructor
        · intro h
          exact absurd h (errCode_limitOrGeneral _)
        · rintro ⟨i, hi, hne⟩
          rw [hfind] at hi
          injection hi with hi2
          subst hi2
          exact absurd (by simpa using hne) hrecv
    · rename_i hfind
      constructor
      · intro h
        exact absurd h (errCode_limitOrGeneral _)
      · rintro ⟨i, hi, _⟩
        rw [hfind] at hi
        exact Option.noConfusion hi

/-! ## C9: round trip -/

theorem getField_nil (k : String) : getField [] k = none := rfl

theorem getField_cons_eq (k : String) (v : JValue) (rest : List (String × JValue)) :
    getField ((k, v) :: rest) k = some v := by
  simp [getField, List.find?]

theorem getField_cons_ne (k k' : String) (v : JValue) (rest : List (String × JValue))
    (h : (k' == k) = false) : getField ((k', v) :: rest) k = getField rest k := by
  simp [getField, List.find?, h]

theorem getField_optField_ne (key k : String) (o : Option JValue)
    (rest : List (String × JValue)) (h : (key == k) = false) :
    getField (optField key o ++ rest) k = getField rest k := by
  cases o with
  | none => simp [optField]
  | some v => simp [optField, getField_cons_ne _ _ _ _ h]

theorem getField_optField_self (key : String) (o : Option JValue)
    (rest : List (String × JValue)) :
    getField (optField key o ++ rest) key = o.or (getField rest key) := by
  cases o with
  | none => simp [optField, Option.or]
  | some v => simp [optField, getField_cons_eq, Option.or]

theorem getField_optField_ne_nil (key k : String) (o : Option JValue)
    (h : (key == k) = false) : getField (optField key o) k = none := by
  cases o with
  | none => rfl
  | some v => simp [optField, getField, List.find?, h]

theorem getField_optField_self_nil (key : String) (o : Option JValue) :
    getField (optField key o) key = o := by
  cases o with
  | none => rfl
  | some v => simp [optField, getField_cons_eq]

theorem getField_ifchildren_ne (b : Bool) (v : JValue) (k : String)
    (rest : List (String × JValue)) (h : (("children" : String) == k) = false) :
    getField ((if b then ([] : List (String × JValue)) else [("children", v)]) ++ rest) k =
      getField rest k := by
  cases b with
  | true => simp
  | false => simp [getField_cons_ne _ _ _ _ h]

theorem readStr_of_getField {fields : List (String × JValue)} {k : String} {s : String}
    (h : getField fields k = some (.str s)) : readStr fields k = some s := by
  simp [readStr, h]

theorem readNum_of_getField {fields : List (String × JValue)} {k : String} {q : ℚ}
    (h : getField fields k = some (.num q)) : readNum fields k = some q := by
  simp [readNum, h]

theorem readBool_of_getField {fields : List (String × JValue)} {k : String} {b : Bool}
    (h : getField fields k = some (.bool b)) : readBool fields k = some b := by
  simp [readBool, h]

theorem readOptStr_of_getField {fields : List (String × JValue)} {k : String}
    {o : Option String} (h : getField fields k = o.map JValue.str) :
    readOptStr fields k = some o := by
  cases o with
  | none => simp at h; simp [readOptStr, h]
  | some s => simp at h; simp [readOptStr, h]

theorem readOptNum_of_getField {fields : List (String × JValue)} {k : String}
    {o : Option ℚ} (h : getField fields k = o.map JValue.num) :
    readOptNum fields k = some o := by
  cases o with
  | none => simp at h; simp [readOptNum, h]
  | some q => simp at h; simp [readOptNum, h]

theorem readOptBool_of_getField {fields : List (String × JValue)} {k : String}
    {o : Option Bool} (h : getField fields k = o.map JValue.bool) :
    readOptBool fields k = some o := by
  cases o with
  | none => simp at h; simp [readOptBool, h]
  | some b => simp at h; simp [readOptBool, h]

theorem decodeBBox_toJson (b : BBox01) : decodeBBox b.toJson = some b := rfl

theorem decodeTextSignal_toJson (t : TextSignal) : decodeTextSignal t.toJson = some t := by
  simp only [TextSignal.toJson, decodeTextSignal]
  have hk : getField (optField "hash" (t.hash.map JValue.str) ++
      optField "len" (t.len.map JValue.num) ++ [("kind", .str t.kind)]) "kind" =
      some (.str t.kind) := by
    rw [List.append_assoc, getField_optField_ne _ _ _ _ (by decide),
      getField_optField_ne _ _ _ _ (by decide), getField_cons_eq]
  have hh : getField (optField "hash" (t.hash.map JValue.str) ++
      optField "len" (t.len.map JValue.num) ++ [("kind", .str t.kind)]) "hash" =
      t.hash.map JValue.str := by
    rw [List.append_assoc, getField_optField_self, getField_optField_ne _ _ _ _ (by decide),
      getField_cons_ne _ _ _ _ (by decide), getField_nil, Option.or_none]
  have hl : getField (optField "hash" (t.hash.map JValue.str) ++
      optField "len" (t.len.map JValue.num) ++ [("kind", .str t.kind)]) "len" =
      t.len.map JValue.num := by
    rw [List.append_assoc, getField_optField_ne _ _ _ _ (by decide),
      getField_optField_self, getField_cons_ne _ _ _ _ (by decide), getField_nil,
      Option.or_none]
  rw [readStr_of_getField hk]
  rw [readOptStr_of_getField hh, readOptNum_of_getField hl]
  rfl

theorem decodeFlags_toJson (f : UINodeFlags) : decodeFlags f.toJson = some f := by
  simp only [UINodeFlags.toJson, decodeFlags]
  have h1 : getField (optField "sticky" (f.sticky.map JValue.bool) ++
      optField "scrollable" (f.scrollable.map JValue.bool) ++
      optField "repeated" (f.repeated.map JValue.bool)) "sticky" =
      f.sticky.map JValue.bool := by
    rw [List.append_assoc, getField_optField_self, getField_optField_ne _ _ _ _ (by decide),
      getField_optField_ne_nil _ _ _ (by decide), Option.or_none]
  have h2 : getField (optField "sticky" (f.sticky.map JValue.bool) ++
      optField "scrollable" (f.scrollable.map JValue.bool) ++
      optField "repeated" (f.repeated.map JValue.bool)) "scrollable" =
      f.scrollable.map JValue.bool := by
    rw [List.append_assoc, getField_optField_ne _ _ _ _ (by decide),
      getField_optField_self, getField_optField_ne_nil _ _ _ (by decide), Option.or_none]
  have h3 : getField (optField "sticky" (f.sticky.map JValue.bool) ++
      optField "scrollable" (f.scrollable.map JValue.bool) ++
      optField "repeated" (f.repeated.map JValue.bool)) "repeated" =
      f.repeated.map JValue.bool := by
    rw [List.append_assoc, getField_optField_ne _ _ _ _ (by decide),
      getField_optField_ne _ _ _ _ (by decide), getField_optField_self_nil]
  rw [readOptBool_of_getField h1, readOptBool_of_getField h2, readOptBool_of_getField h3]
  rfl

theorem getField_ifchildren_self (b : Bool) (v : JValue)
    (rest : List (String × JValue)) :
    getField ((if b then ([] : List (String × JValue)) else [("children", v)]) ++ rest)
        "children" =
      if b then getField rest "children" else some v := by
  cases b with
  | true => simp
  | false => simp [getField_cons_eq]

/-- The field list of `UINode.toJson`, named for the lookup lemmas. -/
def nodeFields (core : NodeCore) (cs : List UINode) : List (String × JValue) :=
  [("id", .str core.id), ("role", .str core.role)] ++
  optField "semantic" (core.semantic.map .str) ++
  optField "name_hash" (core.name_hash.map .str) ++
  optField "text" (core.text.map TextSignal.toJson) ++
  [("bbox", core.bbox.toJson)] ++
  optField "z" (core.z.map .num) ++
  [("interactive", .bool core.interactive)] ++
  optField "enabled" (core.enabled.map .bool) ++
  [("visible", .bool core.visible)] ++
  optField "focusable" (core.focusable.map .bool) ++
  (if cs.isEmpty then [] else [("children", .arr (UINode.listToJson cs))]) ++
  optField "flags" (core.flags.map UINodeFlags.toJson)

theorem toJson_mk (core : NodeCore) (cs : List UINode) :
    (UINode.mk core cs).toJson = .obj (nodeFields core cs) := rfl

theorem getField_nodeFields_id (core : NodeCore) (cs : List UINode) :
    getField (nodeFields core cs) "id" = some (.str core.id) := by
  simp +decide [nodeFields, List.append_assoc, getField_cons_eq, getField_cons_ne,
    getField_optField_ne, getField_optField_self, getField_optField_ne_nil,
    getField_optField_self_nil, getField_ifchildren_ne, getField_ifchildren_self,
    Option.or_none]

theorem getField_nodeFields_role (core : NodeCore) (cs : List UINode) :
    getField (nodeFields core cs) "role" = some (.str core.role) := by
  simp +decide [nodeFields, List.append_assoc, getField_cons_eq, getField_cons_ne,
    getField_optField_ne, getField_optField_self, getField_optField_ne_nil,
    getField_optField_self_nil, getField_ifchildren_ne, getField_ifchildren_self,
    Option.or_none]

theorem getField_nodeFields_semantic (core : NodeCore) (cs : List UINode) :
    getField (nodeFields core cs) "semantic" = core.semantic.map JValue.str := by
  simp +decide [nodeFields, List.append_assoc, getField_cons_eq, getField_cons_ne,
    getField_optField_ne, getField_optField_self, getField_optField_ne_nil,
    getField_optField_self_nil, getField_ifchildren_ne, getField_ifchildren_self,
    Option.or_none]

theorem getField_nodeFields_name_hash (core : NodeCore) (cs : List UINode) :
    getField (nodeFields core cs) "name_hash" = core.name_hash.map JValue.str := by
  simp +decide [nodeFields, List.append_assoc, getField_cons_eq, getField_cons_ne,
    getField_optField_ne, getField_optField_self, getField_optField_ne_nil,
    getField_optField_self_nil, getField_ifchildren_ne, getField_ifchildren_self,
    Option.or_none]

theorem getField_nodeFields_text (core : NodeCore) (cs : List UINode) :
    getField (nodeFields core cs) "text" = core.text.map TextSignal.toJson := by
  simp +decide [nodeFields, List.append_assoc, getField_cons_eq, getField_cons_ne,
    getField_optField_ne, getField_optField_self, getField_optField_ne_nil,
    getField_optField_self_nil, getField_ifchildren_ne, getField_ifchildren_self,
    Option.or_none]

theorem getField_nodeFields_bbox (core : NodeCore) (cs : List UINode) :
    getField (nodeFields core cs) "bbox" = some core.bbox.toJson := by
  simp +decide [nodeFields, List.append_assoc, getField_cons_eq, getField_cons_ne,
    getField_optField_ne, getField_optField_self, getField_optField_ne_nil,
    getField_optField_self_nil, getField_ifchildren_ne, getField_ifchildren_self,
    Option.or_none]

theorem getField_nodeFields_z (core : NodeCore) (cs : List UINode) :
    getField (nodeFields core cs) "z" = core.z.map JValue.num := by
  simp +decide [nodeFields, List.append_assoc, getField_cons_eq, getField_cons_ne,
    getField_optField_ne, getField_optField_self, getField_optField_ne_nil,
    getField_optField_self_nil, getField_ifchildren_ne, getField_ifchildren_self,
    Option.or_none]

theorem getField_nodeFields_interactive (core : NodeCore) (cs : List UINode) :
    getField (nodeFields core cs) "interactive" = some (.bool core.interactive) := by
  simp +decide [nodeFields, List.append_assoc, getField_cons_eq, getField_cons_ne,
    getField_optField_ne, getField_optField_self, getField_optField_ne_nil,
    getField_optField_self_nil, getField_ifchildren_ne, getField_ifchildren_self,
    Option.or_none]

theorem getField_nodeFields_enabled (core : NodeCore) (cs : List UINode) :
    getField (nodeFields core cs) "enabled" = core.enabled.map JValue.bool := by
  simp +decide [nodeFields, List.append_assoc, getField_cons_eq, getField_cons_ne,
    getField_optField_ne, getField_optField_self, getField_optField_ne_nil,
    getField_optField_self_nil, getField_ifchildren_ne, getField_ifchildren_self,
    Option.or_none]

theorem getField_nodeFields_visible (core : NodeCore) (cs : List UINode) :
    getField (nodeFields core cs) "visible" = some (.bool core.visible) := by
  simp +decide [nodeFields, List.append_assoc, getField_cons_eq, getField_cons_ne,
    getField_optField_ne, getField_optField_self, getField_optField_ne_nil,
    getField_optField_self_nil, getField_ifchildren_ne, getField_ifchildren_self,
    Option.or_none]

theorem getField_nodeFields_focusable (core : NodeCore) (cs : List UINode) :
    getField (nodeFields core cs) "focusable" = core.focusable.map JValue.bool := by
  simp +decide [nodeFields, List.append_assoc, getField_cons_eq, getField_cons_ne,
    getField_optField_ne, getField_optField_self, getField_optField_ne_nil,
    getField_optField_self_nil, getField_ifchildren_ne, getField_ifchildren_self,
    Option.or_none]

theorem getField_nodeFields_children (core : NodeCore) (cs : List UINode) :
    getField (nodeFields core cs) "children" =
      if cs.isEmpty then none else some (.arr (UINode.listToJson cs)) := by
  simp +decide [nodeFields, List.append_assoc, getField_cons_eq, getField_cons_ne,
    getField_optField_ne, getField_optField_self, getField_optField_ne_nil,
    getField_optField_self_nil, getField_ifchildren_ne, getField_ifchildren_self,
    Option.or_none]

theorem getField_nodeFields_flags (core : NodeCore) (cs : List UINode) :
    getField (nodeFields core cs) "flags" = core.flags.map UINodeFlags.toJson := by
  simp +decide [nodeFields, List.append_assoc, getField_cons_eq, getField_cons_ne,
    getField_optField_ne, getField_optField_self, getField_optField_ne_nil,
    getField_optField_self_nil, getField_ifchildren_ne, getField_ifchildren_self,
    Option.or_none]

theorem readOptDec_map {σ : Type} (dec : JValue → Option σ) (f : σ → JValue)
    (hdf : ∀ x, dec (f x) = some x) (o : Option σ) :
    readOptDec dec (o.map f) = some o := by
  cases o <;> simp [readOptDec, hdf]

theorem decodeNode_toJson_aux (k : ℕ) :
    ∀ n : UINode, sizeOf n ≤ k → decodeNode n.toJson = some n := by
  induction k with
  | zero =>
    intro n hn
    cases n with
    | mk core cs => simp only [UINode.mk.sizeOf_spec] at hn; omega
  | succ k ih =>
    intro n hn
    cases n with
    | mk core cs =>
    have hcs : ∀ x ∈ cs, sizeOf x ≤ k := by
      intro x hx
      have h1 := List.sizeOf_lt_of_mem hx
      simp only [UINode.mk.sizeOf_spec] at hn
      omega
    have hlist : ∀ l : List UINode, (∀ x ∈ l, sizeOf x ≤ k) →
        decodeNodeList (UINode.listToJson l) = some l := by
      intro l
      induction l with
      | nil => intro _; simp [UINode.listToJson, decodeNodeList]
      | cons c rest ihl =>
        intro hb
        simp only [UINode.listToJson, decodeNodeList]
        rw [ih c (hb c (by simp)), ihl (fun x hx => hb x (by simp [hx]))]
        rfl
    rw [toJson_mk]
    simp only [decodeNode]
    have hch := getField_nodeFields_children core cs
    split
    · rename_i heq
      rw [heq] at hch
      cases hE : cs.isEmpty with
      | false => rw [hE] at hch; simp at hch
      | true =>
        have hnil : cs = [] := List.isEmpty_iff.mp hE
        subst hnil
        simp only [readStr_of_getField (getField_nodeFields_id core []),
          readStr_of_getField (getField_nodeFields_role core []),
          readOptStr_of_getField (getField_nodeFields_semantic core []),
          readOptStr_of_getField (getField_nodeFields_name_hash core []),
          getField_nodeFields_text core [], getField_nodeFields_bbox core [],
          readOptNum_of_getField (getField_nodeFields_z core []),
          readBool_of_getField (getField_nodeFields_interactive core []),
          readOptBool_of_getField (getField_nodeFields_enabled core []),
          readBool_of_getField (getField_nodeFields_visible core []),
          readOptBool_of_getField (getField_nodeFields_focusable core []),
          getField_nodeFields_flags core [],
          readOptDec_map decodeTextSignal TextSignal.toJson decodeTextSignal_toJson,
          readOptDec_map decodeFlags UINodeFlags.toJson decodeFlags_toJson,
          readReqDec, decodeBBox_toJson]
        rfl
    · rename_i elems heq
      rw [heq] at hch
      cases hE : cs.isEmpty with
      | true => rw [hE] at hch; simp at hch
      | false =>
        rw [hE] at hch
        have helems : elems = UINode.listToJson cs := by simpa using hch
        subst helems
        rw [hlist cs hcs]
        simp only [readStr_of_getField (getField_nodeFields_id core cs),
          readStr_of_getField (getField_nodeFields_role core cs),
          readOptStr_of_getField (getField_nodeFields_semantic core cs),
          readOptStr_of_getField (getField_nodeFields_name_hash core cs),
          getField_nodeFields_text core cs, getField_nodeFields_bbox core cs,
          readOptNum_of_getField (getField_nodeFields_z core cs),
          readBool_of_getField (getField_nodeFields_interactive core cs),
          readOptBool_of_getField (getField_nodeFields_enabled core cs),
          readBool_of_getField (getField_nodeFields_visible core cs),
          readOptBool_of_getField (getField_nodeFields_focusable core cs),
          getField_nodeFields_flags core cs,
          readOptDec_map decodeTextSignal TextSignal.toJson decodeTextSignal_toJson,
          readOptDec_map decodeFlags UINodeFlags.toJson decodeFlags_toJson,
          readReqDec, decodeBBox_toJson]
        rfl
    · rename_i heq
      rw [heq] at hch
      cases hE : cs.isEmpty with
      | true => rw [hE] at hch; simp at hch
      | false =>
        rw [hE] at hch
        simp at hch
        rename_i hne
        exact (hne _ hch).elim

theorem decodeNode_toJson (n : UINode) : decodeNode n.toJson = some n :=
  decodeNode_toJson_aux (sizeOf n) n le_rfl

theorem decodeCapture_toJson (c : WebSketchCapture) :
    decodeCapture (captureToJson c) = some c := by
  simp only [captureToJson, decodeCapture]
  simp +decide [getField_cons_eq, getField_cons_ne, getField_optField_self_nil,
    getField_optField_ne_nil, List.append_assoc, List.cons_append, List.nil_append,
    readStr, readNum, readOptNum, decodeNode_toJson, Option.or_none]
  rcases h : c.viewport.scroll_y01 with _ | q
  · simp [h]
    rw [show (none : Option ℚ) = c.viewport.scroll_y01 from h.symm]
  · simp [h]
    rw [show some q = c.viewport.scroll_y01 from h.symm]

/-- Witness capture for the round trip: a single valid `TEXT` node. -/
def c9RootCore : NodeCore :=
  ⟨"a", "TEXT", none, none, none, ⟨0, 0, 1, 1⟩, none, false, none, true, none, none⟩

def c9Root : UINode := .mk c9RootCore []

def c9Cap : WebSketchCapture :=
  ⟨"0.1", "https://example.com", 0, ⟨100, 100, 1, none⟩, ⟨"c", "1", "h"⟩, c9Root⟩

theorem c9_validateNode_root :
    validateNode c9Root.toJson "root" 0 0 ⟨10000, 50, 10000⟩ [] = (1, []) := by
  rw [show c9Root.toJson = .obj (nodeFields c9RootCore []) from rfl]
  have hrole : roleIssues (nodeFields c9RootCore []) "root" = [] := rfl
  have hbbox : bboxIssues (nodeFields c9RootCore []) "root" = [] := rfl
  have hint : boolFieldIssues (nodeFields c9RootCore []) "root" "interactive"
      "Node interactive is required and must be a boolean" = [] := rfl
  have hvis : boolFieldIssues (nodeFields c9RootCore []) "root" "visible"
      "Node visible is required and must be a boolean" = [] := rfl
  have hid : idIssues (nodeFields c9RootCore []) "root" = [] := rfl
  have htext : textIssues (nodeFields c9RootCore []) "root" = [] := rfl
  have hch : getField (nodeFields c9RootCore []) "children" = none := rfl
  simp only [validateNode]
  rw [if_neg (by norm_num), if_neg (by norm_num)]
  simp only [hrole, hbbox, hint, hvis, hid, htext, List.append_nil, List.nil_append]
  split
  · rfl
  · rename_i elems heq
    rw [hch] at heq
    exact Option.noConfusion heq
  · rename_i other hall heq
    rw [hch] at heq
    exact Option.noConfusion heq

theorem c9_valid : validateCapture (captureToJson c9Cap) PartialLimits.empty = [] := by
  have step1 : validateCapture (captureToJson c9Cap) PartialLimits.empty =
      (validateNode c9Root.toJson "root" 0 0 ⟨10000, 50, 10000⟩ []).2 := rfl
  rw [step1, c9_validateNode_root]

/-- C9: for every valid capture — one on which `validateCapture` reports no
issues — strict parsing of its JSON form succeeds, and the typed reading of
that JSON returns a capture structurally equal to the original. -/
theorem C9_round_trip (c : WebSketchCapture) (limits : PartialLimits)
    (h : validateCapture (captureToJson c) limits = []) :
    parseCaptureValue (captureToJson c) limits = .ok (captureToJson c) ∧
      decodeCapture (captureToJson c) = some c := by
  refine ⟨?_, decodeCapture_toJson c⟩
  unfold parseCaptureValue
  rw [h]
  rfl

/-- Witness: the round trip at the concrete single-node capture. -/
theorem C9_round_trip_witness :
    validateCapture (captureToJson c9Cap) PartialLimits.empty = [] ∧
    (parseCaptureValue (captureToJson c9Cap) PartialLimits.empty =
        .ok (captureToJson c9Cap) ∧
      decodeCapture (captureToJson c9Cap) = some c9Cap) :=
  ⟨c9_valid, C9_round_trip c9Cap PartialLimits.empty c9_valid⟩

/-! ## C2: similarity bounds -/

theorem bboxSimilarity_cases (a b : BBox01) :
    bboxSimilarity a b = 0 ∨
    (0 < bboxSimilarity a b ∧ bboxSimilarity a b ≤ 1 ∧
     0 < a.w ∧ 0 < a.h ∧ 0 < b.w ∧ 0 < b.h) := by
  have hI : (0:ℚ) ≤ max 0 (min (a.x + a.w) (b.x + b.w) - max a.x b.x) *
      max 0 (min (a.y + a.h) (b.y + b.h) - max a.y b.y) :=
    mul_nonneg (le_max_left _ _) (le_max_left _ _)
  rcases eq_or_lt_of_le hI with hI0 | hIpos
  · left
    simp only [bboxSimilarity]
    split
    · rfl
    · rw [← hI0]
      exact zero_div _
  · right
    have hx : 0 < min (a.x + a.w) (b.x + b.w) - max a.x b.x := by
      by_contra hx
      push_neg at hx
      have h0 : max 0 (min (a.x + a.w) (b.x + b.w) - max a.x b.x) = 0 := max_eq_left hx
      rw [h0, zero_mul] at hIpos
      exact lt_irrefl 0 hIpos
    have hy : 0 < min (a.y + a.h) (b.y + b.h) - max a.y b.y := by
      by_contra hy
      push_neg at hy
      have h0 : max 0 (min (a.y + a.h) (b.y + b.h) - max a.y b.y) = 0 := max_eq_left hy
      rw [h0, mul_zero] at hIpos
      exact lt_irrefl 0 hIpos
    have hwa : 0 < a.w := by
      have h1 := min_le_left (a.x + a.w) (b.x + b.w)
      have h2 := le_max_left a.x b.x
      linarith
    have hha : 0 < a.h := by
      have h1 := min_le_left (a.y + a.h) (b.y + b.h)
      have h2 := le_max_left a.y b.y
      linarith
    have hwb : 0 < b.w := by
      have h1 := min_le_right (a.x + a.w) (b.x + b.w)
      have h2 := le_max_right a.x b.x
      linarith
    have hhb : 0 < b.h := by
      have h1 := min_le_right (a.y + a.h) (b.y + b.h)
      have h2 := le_max_right a.y b.y
      linarith
    have hmx : max 0 (min (a.x + a.w) (b.x + b.w) - max a.x b.x) =
        min (a.x + a.w) (b.x + b.w) - max a.x b.x := max_eq_right (le_of_lt hx)
    have hmy : max 0 (min (a.y + a.h) (b.y + b.h) - max a.y b.y) =
        min (a.y + a.h) (b.y + b.h) - max a.y b.y := max_eq_right (le_of_lt hy)
    have hxa : min (a.x + a.w) (b.x + b.w) - max a.x b.x ≤ a.w := by
      have h1 := min_le_left (a.x + a.w) (b.x + b.w)
      have h2 := le_max_left a.x b.x
      linarith
    have hya : min (a.y + a.h) (b.y + b.h) - max a.y b.y ≤ a.h := by
      have h1 := min_le_left (a.y + a.h) (b.y + b.h)
      have h2 := le_max_left a.y b.y
      linarith
    have hxb : min (a.x + a.w) (b.x + b.w) - max a.x b.x ≤ b.w := by
      have h1 := min_le_right (a.x + a.w) (b.x + b.w)
      have h2 := le_max_right a.x b.x
      linarith
    have hyb : min (a.y + a.h) (b.y + b.h) - max a.y b.y ≤ b.h := by
      have h1 := min_le_right (a.y + a.h) (b.y + b.h)
      have h2 := le_max_right a.y b.y
      linarith
    have hIa : (min (a.x + a.w) (b.x + b.w) - max a.x b.x) *
        (min (a.y + a.h) (b.y + b.h) - max a.y b.y) ≤ a.w * a.h :=
      mul_le_mul hxa hya (le_of_lt hy) (by linarith)
    have hIb : (min (a.x + a.w) (b.x + b.w) - max a.x b.x) *
        (min (a.y + a.h) (b.y + b.h) - max a.y b.y) ≤ b.w * b.h :=
      mul_le_mul hxb hyb (le_of_lt hy) (by linarith)
    have hUpos : 0 < a.w * a.h + b.w * b.h -
        (min (a.x + a.w) (b.x + b.w) - max a.x b.x) *
        (min (a.y + a.h) (b.y + b.h) - max a.y b.y) := by
      linarith [mul_pos hwb hhb]
    simp only [bboxSimilarity]
    rw [hmx, hmy]
    rw [if_neg (ne_of_gt hUpos)]
    refine ⟨div_pos (by rw [hmx, hmy] at hIpos; exact hIpos) hUpos, ?_, hwa, hha, hwb, hhb⟩
    rw [div_le_one hUpos]
    linarith

theorem bboxSimilarity_nonneg (a b : BBox01) : 0 ≤ bboxSimilarity a b := by
  rcases bboxSimilarity_cases a b with h | ⟨h, _⟩
  · rw [h]
  · exact le_of_lt h

theorem bboxSimilarity_self (a : BBox01) (hw : 0 < a.w) (hh : 0 < a.h) :
    bboxSimilarity a a = 1 := by
  simp only [bboxSimilarity, max_self, min_self]
  have h1 : max 0 (a.x + a.w - a.x) = a.w := by
    rw [add_sub_cancel_left]; exact max_eq_right (le_of_lt hw)
  have h2 : max 0 (a.y + a.h - a.y) = a.h := by
    rw [add_sub_cancel_left]; exact max_eq_right (le_of_lt hh)
  rw [h1, h2]
  rw [if_neg (by intro h; nlinarith [mul_pos hw hh])]
  rw [show a.w * a.h + a.w * a.h - a.w * a.h = a.w * a.h from by ring]
  exact div_self (ne_of_gt (mul_pos hw hh))

theorem bboxSimilarity_le_self_left (a b : BBox01) :
    bboxSimilarity a b ≤ bboxSimilarity a a := by
  rcases bboxSimilarity_cases a b with h | ⟨hpos, hle, hwa, hha, hwb, hhb⟩
  · rw [h]; exact bboxSimilarity_nonneg a a
  · rw [bboxSimilarity_self a hwa hha]; exact hle

theorem bboxSimilarity_le_self_right (a b : BBox01) :
    bboxSimilarity a b ≤ bboxSimilarity b b := by
  rcases bboxSimilarity_cases a b with h | ⟨hpos, hle, hwa, hha, hwb, hhb⟩
  · rw [h]; exact bboxSimilarity_nonneg b b
  · rw [bboxSimilarity_self b hwb hhb]; exact hle

theorem half_le_nodeSimilarity_self (a : UINode) :
    1 / 2 ≤ nodeSimilarity a a := by
  have hβ := bboxSimilarity_nonneg a.core.bbox a.core.bbox
  simp only [nodeSimilarity, beq_self_eq_true, Bool.and_true, Bool.and_self,
    Bool.not_and_self, Bool.or_self, if_true, if_pos rfl]
  rw [if_neg Bool.false_ne_true]
  rw [le_div_iff₀ (by norm_num)]
  split_ifs <;> linarith

theorem nodeSimilarity_le_self_left (a b : UINode) :
    nodeSimilarity a b ≤ nodeSimilarity a a := by
  have hβ0 := bboxSimilarity_nonneg a.core.bbox b.core.bbox
  have hβl := bboxSimilarity_le_self_left a.core.bbox b.core.bbox
  have hβs := bboxSimilarity_nonneg a.core.bbox a.core.bbox
  simp only [nodeSimilarity, beq_self_eq_true, Bool.and_true, Bool.and_self,
    Bool.not_and_self, Bool.or_self, if_true, if_pos rfl]
  refine div_le_div₀ ?_ ?_ (by simp; norm_num) ?_
  · split_ifs <;> linarith
  · split_ifs <;> (try linarith) <;> (exfalso; simp_all)
  · split_ifs <;> (try contradiction) <;> norm_num

theorem nodeSimilarity_le_self_right (a b : UINode) :
    nodeSimilarity a b ≤ nodeSimilarity b b := by
  have hβ0 := bboxSimilarity_nonneg a.core.bbox b.core.bbox
  have hβr := bboxSimilarity_le_self_right a.core.bbox b.core.bbox
  have hβs := bboxSimilarity_nonneg b.core.bbox b.core.bbox
  simp only [nodeSimilarity, beq_self_eq_true, Bool.and_true, Bool.and_self,
    Bool.not_and_self, Bool.or_self, if_true, if_pos rfl]
  refine div_le_div₀ ?_ ?_ (by simp; norm_num) ?_
  · split_ifs <;> linarith
  · split_ifs <;> (try linarith) <;> (exfalso; simp_all)
  · split_ifs <;> (try contradiction) <;> norm_num

/-- Generation order of the candidate matrix: row, then column. -/
def candLex (c d : Candidate) : Prop :=
  c.i < d.i ∨ (c.i = d.i ∧ c.j < d.j)

theorem genCandidates_mem {N M : List FlatNode} {opts : ResolvedDiffOptions}
    {c : Candidate} (h : c ∈ genCandidates N M opts) :
    c.i < N.length ∧ c.j < M.length ∧
      c.sim = nodeSimilarity ((N.getD c.i default).node) ((M.getD c.j default).node) := by
  simp only [genCandidates, List.mem_flatten, List.mem_map] at h
  obtain ⟨row, ⟨i, hi, rfl⟩, hc⟩ := h
  rw [List.mem_filterMap] at hc
  obtain ⟨j, hj, hcj⟩ := hc
  rw [List.mem_range] at hi hj
  split_ifs at hcj <;>
    first
      | exact Option.noConfusion hcj
      | (injection hcj with h1; subst h1; exact ⟨hi, hj, rfl⟩)

theorem genCandidates_diag {N : List FlatNode} {opts : ResolvedDiffOptions}
    (m : ℕ) (hm : m < N.length)
    (hth : opts.matchThreshold ≤
      nodeSimilarity ((N.getD m default).node) ((N.getD m default).node)) :
    (⟨m, m, nodeSimilarity ((N.getD m default).node) ((N.getD m default).node)⟩ :
      Candidate) ∈ genCandidates N N opts := by
  simp only [genCandidates, List.mem_flatten, List.mem_map]
  refine ⟨_, ⟨m, List.mem_range.mpr hm, rfl⟩, ?_⟩
  rw [List.mem_filterMap]
  refine ⟨m, List.mem_range.mpr hm, ?_⟩
  rw [if_neg (fun hcon => hcon.1 rfl), if_pos hth]

theorem genCandidates_pairwise_lex (N M : List FlatNode) (opts : ResolvedDiffOptions) :
    (genCandidates N M opts).Pairwise candLex := by
  unfold genCandidates
  rw [List.pairwise_flatten]
  constructor
  · intro row hrow
    rw [List.mem_map] at hrow
    obtain ⟨i, hi, rfl⟩ := hrow
    rw [List.pairwise_filterMap]
    refine List.Pairwise.imp_of_mem ?_ (List.pairwise_lt_range M.length)
    intro j k hj hk hjk x hx y hy
    simp only [Option.mem_def] at hx hy
    split_ifs at hx hy <;>
      first
        | exact Option.noConfusion hx
        | exact Option.noConfusion hy
        | (injection hx with h1; injection hy with h2; subst h1; subst h2;
           exact Or.inr ⟨rfl, hjk⟩)
  · rw [List.pairwise_map]
    refine List.Pairwise.imp_of_mem ?_ (List.pairwise_lt_range N.length)
    intro i1 i2 h1 h2 hlt x hx y hy
    rw [List.mem_filterMap] at hx hy
    obtain ⟨j, hj, hxj⟩ := hx
    obtain ⟨k, hk, hyk⟩ := hy
    simp only [Option.mem_def] at hxj hyk
    split_ifs at hxj hyk <;>
      first
        | exact Option.noConfusion hxj
        | exact Option.noConfusion hyk
        | (injection hxj with e1; injection hyk with e2; subst e1; subst e2;
           exact Or.inl hlt)

theorem greedy_go (N : List FlatNode) (todo : List Candidate) :
    ∀ (P : List Candidate) (st : MatchState),
    (∀ c ∈ P ++ todo, c.i < N.length ∧ c.j < N.length ∧
      c.sim = nodeSimilarity ((N.getD c.i default).node) ((N.getD c.j default).node)) →
    ((P ++ todo).Pairwise (fun c d => d.sim ≤ c.sim ∧
      (decide (d.sim < c.sim) = false → decide (c.sim < d.sim) = false → candLex c d))) →
    (∀ m, m < N.length → (⟨m, m,
      nodeSimilarity ((N.getD m default).node) ((N.getD m default).node)⟩ : Candidate)
      ∈ P ++ todo) →
    st.usedA = st.usedB →
    (∀ mp ∈ st.matchList, mp.nodeA = mp.nodeB) →
    (∀ c ∈ P, c.i = c.j → c.i ∈ st.usedA) →
    (todo.foldl (greedyStep N N) st).usedA = (todo.foldl (greedyStep N N) st).usedB ∧
    (∀ mp ∈ (todo.foldl (greedyStep N N) st).matchList, mp.nodeA = mp.nodeB) ∧
    (∀ c ∈ P ++ todo, c.i = c.j → c.i ∈ (todo.foldl (greedyStep N N) st).usedA) := by
  induction todo with
  | nil =>
    intro P st hval hpair hdiag hAB hM hP
    simp only [List.foldl_nil]
    refine ⟨hAB, hM, ?_⟩
    intro c hc hcij
    exact hP c (by simpa using hc) hcij
  | cons c rest ih =>
    intro P st hval hpair hdiag hAB hM hP
    have hassoc : P ++ c :: rest = (P ++ [c]) ++ rest := by simp
    rw [List.foldl_cons]
    by_cases hcond : (st.usedA.contains c.i || st.usedB.contains c.j) = true
    · have hstep : greedyStep N N st c = st := by
        simp only [greedyStep, hcond, if_pos]
      rw [hstep]
      have hP' : ∀ d ∈ P ++ [c], d.i = d.j → d.i ∈ st.usedA := by
        intro d hd hdij
        rcases List.mem_append.mp hd with hd | hd
        · exact hP d hd hdij
        · rw [List.mem_singleton] at hd
          rw [hd] at hdij ⊢
          have hcond2 : c.i ∈ st.usedA ∨ c.j ∈ st.usedB := by simpa using hcond
          rcases hcond2 with hc1 | hc1
          · exact hc1
          · rw [hAB, hdij]
            exact hc1
      have hres := ih (P ++ [c]) st (by rw [← hassoc]; exact hval)
        (by rw [← hassoc]; exact hpair) (fun m hm => by rw [← hassoc]; exact hdiag m hm)
        hAB hM hP'
      exact ⟨hres.1, hres.2.1, by rw [hassoc]; exact hres.2.2⟩
    · have hiA : c.i ∉ st.usedA := by
        intro hmem
        exact hcond (by simp [hmem])
      have hjB : c.j ∉ st.usedB := by
        intro hmem
        exact hcond (by simp [hmem])
      by_cases hdij : c.i = c.j
      · have hstep : greedyStep N N st c =
            ⟨st.matchList ++ [⟨N.getD c.i default, N.getD c.j default, c.sim⟩],
             st.usedA ++ [c.i], st.usedB ++ [c.j]⟩ := by
          simp only [greedyStep]
          rw [if_neg]
          intro hcon
          exact hcond hcon
        rw [hstep]
        have hAB' : st.usedA ++ [c.i] = st.usedB ++ [c.j] := by rw [hAB, hdij]
        have hM' : ∀ mp ∈ st.matchList ++
            [(⟨N.getD c.i default, N.getD c.j default, c.sim⟩ : MatchPair)],
            mp.nodeA = mp.nodeB := by
          intro mp hmp
          rcases List.mem_append.mp hmp with hmp | hmp
          · exact hM mp hmp
          · rw [List.mem_singleton] at hmp
            subst hmp
            show N.getD c.i default = N.getD c.j default
            rw [hdij]
        have hP' : ∀ d ∈ P ++ [c], d.i = d.j → d.i ∈ st.usedA ++ [c.i] := by
          intro d hd hdij2
          rcases List.mem_append.mp hd with hd | hd
          · exact List.mem_append_left _ (hP d hd hdij2)
          · rw [List.mem_singleton] at hd
            subst hd
            exact List.mem_append_right _ (List.mem_singleton.mpr rfl)
        have hres := ih (P ++ [c])
          ⟨st.matchList ++ [⟨N.getD c.i default, N.getD c.j default, c.sim⟩],
           st.usedA ++ [c.i], st.usedB ++ [c.j]⟩
          (by rw [← hassoc]; exact hval) (by rw [← hassoc]; exact hpair)
          (fun m hm => by rw [← hassoc]; exact hdiag m hm) hAB' hM' hP'
        exact ⟨hres.1, hres.2.1, by rw [hassoc]; exact hres.2.2⟩
      · exfalso
        have hcmem : c ∈ P ++ c :: rest := by simp
        obtain ⟨hci, hcj, hcsim⟩ := hval c hcmem
        have hmlt : min c.i c.j < N.length := lt_of_le_of_lt (min_le_left _ _) hci
        have hdm := hdiag (min c.i c.j) hmlt
        rcases List.mem_append.mp hdm with hdmP | hdmCR
        · have hmused := hP _ hdmP rfl
          rcases min_cases c.i c.j with ⟨hmeq, _⟩ | ⟨hmeq, _⟩
          · rw [show (⟨min c.i c.j, min c.i c.j, nodeSimilarity
                ((N.getD (min c.i c.j) default).node)
                ((N.getD (min c.i c.j) default).node)⟩ : Candidate).i = min c.i c.j
                from rfl, hmeq] at hmused
            exact hiA hmused
          · rw [show (⟨min c.i c.j, min c.i c.j, nodeSimilarity
                ((N.getD (min c.i c.j) default).node)
                ((N.getD (min c.i c.j) default).node)⟩ : Candidate).i = min c.i c.j
                from rfl, hmeq] at hmused
            rw [hAB] at hmused
            exact hjB hmused
        · rcases List.mem_cons.mp hdmCR with hdmc | hdmrest
          · apply hdij
            have h1 := congrArg Candidate.i hdmc
            have h2 := congrArg Candidate.j hdmc
            simp only at h1 h2
            exact h1.symm.trans h2
          · have hpright := (List.pairwise_append.mp hpair).2.1
            have hRcd := (List.pairwise_cons.mp hpright).1 _ hdmrest
            have hle : c.sim ≤ nodeSimilarity ((N.getD (min c.i c.j) default).node)
                ((N.getD (min c.i c.j) default).node) := by
              rcases min_cases c.i c.j with ⟨hmeq, _⟩ | ⟨hmeq, _⟩
              · rw [hcsim, hmeq]
                exact nodeSimilarity_le_self_left _ _
              · rw [hcsim, hmeq]
                exact nodeSimilarity_le_self_right _ _
            have heq : c.sim = nodeSimilarity ((N.getD (min c.i c.j) default).node)
                ((N.getD (min c.i c.j) default).node) := le_antisymm hle hRcd.1
            have hlex := hRcd.2 (decide_eq_false (by rw [heq]; exact lt_irrefl _))
              (decide_eq_false (by rw [heq]; exact lt_irrefl _))
            rcases hlex with h | ⟨h1, h2⟩
            · exact absurd h (not_lt.mpr (min_le_left _ _))
            · exact absurd h2 (not_lt.mpr (min_le_right _ _))

theorem findMatches_self (N : List FlatNode) (opts : ResolvedDiffOptions)
    (hth : ∀ m, m < N.length → opts.matchThreshold ≤
      nodeSimilarity ((N.getD m default).node) ((N.getD m default).node)) :
    (∀ mp ∈ (findMatches N N opts).matchList, mp.nodeA = mp.nodeB) ∧
    (findMatches N N opts).unmatchedA = [] ∧
    (findMatches N N opts).unmatchedB = [] := by
  have hSval : ∀ c ∈ stableSortBy (fun c d : Candidate => d.sim < c.sim)
      (genCandidates N N opts), c.i < N.length ∧ c.j < N.length ∧
      c.sim = nodeSimilarity ((N.getD c.i default).node) ((N.getD c.j default).node) :=
    fun c hc => genCandidates_mem ((mem_stableSortBy _ _ _).mp hc)
  have hSdiag : ∀ m, m < N.length →
      (⟨m, m, nodeSimilarity ((N.getD m default).node) ((N.getD m default).node)⟩ :
        Candidate) ∈ stableSortBy (fun c d : Candidate => d.sim < c.sim)
        (genCandidates N N opts) :=
    fun m hm => (mem_stableSortBy _ _ _).mpr (genCandidates_diag m hm (hth m hm))
  have hdesc : (stableSortBy (fun c d : Candidate => d.sim < c.sim)
      (genCandidates N N opts)).Pairwise (fun c d => d.sim ≤ c.sim) := by
    refine pairwise_stableSortBy (fun c d : Candidate => decide (d.sim < c.sim))
      ?_ ?_ ?_ _
    · intro x y h
      exact le_of_lt (of_decide_eq_true h)
    · intro x y h
      exact not_lt.mp (of_decide_eq_false h)
    · intro x y z h1 h2
      exact le_trans h2 h1
  have htie := pairwise_tie_stableSortBy (fun c d : Candidate => decide (d.sim < c.sim))
    (genCandidates_pairwise_lex N N opts)
  have hpair := hdesc.and htie
  have hres := greedy_go N (stableSortBy (fun c d : Candidate => d.sim < c.sim)
      (genCandidates N N opts)) [] ⟨[], [], []⟩
    (by simpa using hSval) (by simpa using hpair) (by simpa using hSdiag)
    rfl (by simp) (by simp)
  refine ⟨?_, ?_, ?_⟩
  · intro mp hmp
    simp only [findMatches] at hmp
    exact hres.2.1 mp hmp
  · simp only [findMatches]
    rw [List.filterMap_eq_nil_iff]
    intro i hi
    rw [if_pos]
    have hmem := hres.2.2 _ (by simpa using hSdiag i (List.mem_range.mp hi)) rfl
    simpa using hmem
  · simp only [findMatches]
    rw [List.filterMap_eq_nil_iff]
    intro j hj
    rw [if_pos]
    have hmem := hres.2.2 _ (by simpa using hSdiag j (List.mem_range.mp hj)) rfl
    rw [hres.1] at hmem
    simpa using hmem

theorem classifyMatchChanges_self (m : MatchPair) (opts : ResolvedDiffOptions)
    (hmv : 0 ≤ opts.moveThreshold) (hrs : 0 ≤ opts.resizeThreshold)
    (h : m.nodeA = m.nodeB) :
    classifyMatchChanges m opts = [] := by
  simp [classifyMatchChanges, h, computeBboxDelta, sub_self, abs_zero,
    not_lt.mpr hmv, not_lt.mpr hrs]

/-- C2: the diff of a capture with itself has an identical summary, no
changes, all-zero per-type counts, and both fingerprint-match flags true. -/
theorem C2_self_diff_identity (c : WebSketchCapture) :
    (diff c c DiffOptions.empty).summary.identical = true ∧
    (diff c c DiffOptions.empty).changes = [] ∧
    (∀ t, (diff c c DiffOptions.empty).summary.counts t = 0) ∧
    (diff c c DiffOptions.empty).summary.fingerprintsMatch = true ∧
    (diff c c DiffOptions.empty).summary.layoutFingerprintsMatch = true := by
  obtain ⟨hM, hUA, hUB⟩ := findMatches_self (flattenTree c.root 0 "")
    (resolveDiffOptions DiffOptions.empty)
    (fun m hm => half_le_nodeSimilarity_self _)
  have hch : ((findMatches (flattenTree c.root 0 "") (flattenTree c.root 0 "")
        (resolveDiffOptions DiffOptions.empty)).matchList.map
        (classifyMatchChanges · (resolveDiffOptions DiffOptions.empty))).flatten ++
      (findMatches (flattenTree c.root 0 "") (flattenTree c.root 0 "")
        (resolveDiffOptions DiffOptions.empty)).unmatchedB.map addedChange ++
      (findMatches (flattenTree c.root 0 "") (flattenTree c.root 0 "")
        (resolveDiffOptions DiffOptions.empty)).unmatchedA.map removedChange = [] := by
    rw [hUA, hUB]
    simp only [List.map_nil, List.append_nil]
    apply List.flatten_eq_nil_iff.mpr
    intro l hl
    obtain ⟨mp, hmp, rfl⟩ := List.mem_map.mp hl
    exact classifyMatchChanges_self mp _ (by norm_num [resolveDiffOptions, DiffOptions.empty]) (by norm_num [resolveDiffOptions, DiffOptions.empty]) (hM mp hmp)
  refine ⟨?_, ?_, ?_, ?_, ?_⟩
  · simp only [diff]
    rw [hch]
    rfl
  · simp only [diff]
    rw [hch]
  · intro t
    simp only [diff]
    rw [hch]
    rfl
  · simp only [diff]
    exact beq_self_eq_true _
  · simp only [diff]
    exact beq_self_eq_true _
